import Mathlib

/-!
# Containment and distance predicates of `ufo/geometry`

A shallow embedding of `contains.hpp`, `distance.hpp` and the slab test of
`detail/helper.hpp`.

The scalar type `T` of the C++ templates is an ordered field `α` (exact arithmetic), the
dimension `Dim` is a natural number, and every overload `contains(A, B)` of the source becomes
a definition `contains_A_B`.  The `bool` results of the source are `Bool` here.

The library function `std::sqrt` is a parameter `sqrt` of the definitions that call it, so
that they stay computable over any ordered field; the theorems instantiate it with the real
square root `Real.sqrt`.

Exact arithmetic is not enough to decide whether a zero divisor can be reached: for
`contains(Ray, Vec)` the scalar product is a parameter as well (`contains_Ray_Vec_checked_with`),
instantiated with the exact product and with a product that underflows as binary64 does.
-/

namespace ufo

variable {α : Type} [LinearOrderedField α] {Dim : Nat}

/-! ## Vectors and scalar helpers (declared outside the given sources) -/

/-- Modelled from the spec: `Vec<Dim, T>` of `ufo/math/vec.hpp`, a fixed-size tuple of `Dim`
scalars read with `v[i]`. -/
abbrev Vec (Dim : Nat) (α : Type) := Fin Dim → α

/-- Modelled from the spec: `all(v)` of `ufo/math/vec.hpp`, the conjunction of the components
of a vector of booleans. -/
def all (v : Fin Dim → Bool) : Bool := decide (∀ i, v i = true)

/-- Modelled from the spec: `lessThanEqual(x, y)` (also written `x <= y` on vectors) of
`ufo/math/vec.hpp`, the componentwise comparison. -/
def lessThanEqual (x y : Vec Dim α) : Fin Dim → Bool := fun i => decide (x i ≤ y i)

/-- Modelled from the spec: `x && y` on vectors of booleans, componentwise. -/
def vand (x y : Fin Dim → Bool) : Fin Dim → Bool := fun i => x i && y i

/-- Modelled from the spec: `a == b` on vectors (`ufo/math/vec.hpp`): all components equal. -/
def veq (a b : Vec Dim α) : Bool := decide (∀ i, a i = b i)

/-- Modelled from the spec: `dot(a, b)` of `ufo/math/vec.hpp`, the sum of the componentwise
products. -/
def dot (a b : Vec Dim α) : α := ∑ i, a i * b i

/-- Modelled from the spec: `distanceSquared(Vec, Vec)` of `ufo/math/vec.hpp`, the squared
Euclidean distance. -/
def distanceSquared_Vec_Vec (a b : Vec Dim α) : α := ∑ i, (a i - b i) * (a i - b i)

/-- Modelled from the spec: `distance(Vec, Vec)` of `ufo/math/vec.hpp`, the Euclidean
distance; `sqrt` stands for `std::sqrt`. -/
def distance_Vec_Vec (sqrt : α → α) (a b : Vec Dim α) : α := sqrt (distanceSquared_Vec_Vec a b)

/-- Modelled from the spec: `length(v)` of `ufo/math/vec.hpp`, the Euclidean norm. -/
def length (sqrt : α → α) (v : Vec Dim α) : α := sqrt (dot v v)

/-- Modelled from the spec: `normalize(v)` of `ufo/math/vec.hpp`, the vector divided by its
length. -/
def normalize (sqrt : α → α) (v : Vec Dim α) : Vec Dim α := fun i => v i / length sqrt v

/-- Modelled from the spec: `clamp(x, lo, hi)` of `ufo/math/vec.hpp`, componentwise
`min(max(x, lo), hi)`. -/
def clamp (x lo hi : Vec Dim α) : Vec Dim α := fun i => min (max (x i) (lo i)) (hi i)

/-- The C library function `std::fdim(x, y)`: `x - y` when `x > y`, and `+0` otherwise. -/
def fdim (x y : α) : α := if x > y then x - y else 0

/-! ## Shapes (declared outside the given sources) -/

/-- Modelled from the spec: `AABB<Dim, T>` with its minimum and maximum corner; `min(a)` and
`max(a)` of the source are the two fields. -/
structure AABB (Dim : Nat) (α : Type) where
  min : Vec Dim α
  max : Vec Dim α

/-- Modelled from the spec: `Sphere<Dim, T>` with `center` and `radius`. -/
structure Sphere (Dim : Nat) (α : Type) where
  center : Vec Dim α
  radius : α

/-- Modelled from the spec: `min(Sphere)`, the centre minus the radius on every axis. -/
def Sphere.min (b : Sphere Dim α) : Vec Dim α := fun i => b.center i - b.radius

/-- Modelled from the spec: `max(Sphere)`, the centre plus the radius on every axis. -/
def Sphere.max (b : Sphere Dim α) : Vec Dim α := fun i => b.center i + b.radius

/-- Modelled from the spec: one half-space of a frustum, `normal` and `distance` (offset). -/
structure Plane (Dim : Nat) (α : Type) where
  normal : Vec Dim α
  distance : α

/-- Modelled from the spec: `Frustum<Dim, T>`, `2 * Dim` planes read with `f[i]`. -/
structure Frustum (Dim : Nat) (α : Type) where
  planes : Fin (Dim * 2) → Plane Dim α

/-- `LineSegment<Dim, T>` of shape/line_segment.hpp with its two end points `start` and `end`
(`end` is a reserved word, hence `end_`). -/
structure LineSegment (Dim : Nat) (α : Type) where
  start : Vec Dim α
  end_ : Vec Dim α

/-- Modelled from the spec: `Capsule<Dim, T>` with the end points `start`, `end` of its axis
and its `radius`. -/
structure Capsule (Dim : Nat) (α : Type) where
  start : Vec Dim α
  end_ : Vec Dim α
  radius : α

/-- Modelled from the spec: `Triangle<Dim, T>`, three vertices read with `t[0]`, `t[1]`,
`t[2]`. -/
structure Triangle (Dim : Nat) (α : Type) where
  points : Fin 3 → Vec Dim α

/-- Modelled from the spec: `Ray<Dim, T>` with `origin` and `direction`. -/
structure Ray (Dim : Nat) (α : Type) where
  origin : Vec Dim α
  direction : Vec Dim α

/-- Modelled from the spec: `a == b` on rays, equality of origin and of direction. -/
def Ray.beq (a b : Ray Dim α) : Bool := veq a.origin b.origin && veq a.direction b.direction

/-- Modelled from the spec: `OBB<Dim, T>` with `center`, `half_length` and its orientation,
here a rotation matrix. -/
structure OBB (Dim : Nat) (α : Type) where
  center : Vec Dim α
  half_length : Vec Dim α
  rotation : Fin Dim → Fin Dim → α

/-- Modelled from the spec: `corners(AABB)`, the fixed-size enumeration of the `2 ^ Dim`
corners of a box; corner number `k` takes `max` on the axes whose bit is set in `k` and `min`
on the others. -/
def corners (b : AABB Dim α) : List (Vec Dim α) :=
  List.ofFn fun k : Fin (2 ^ Dim) => fun i : Fin Dim =>
    if k.val.testBit i.val then b.max i else b.min i

/-- A box is well formed when `min ≤ max` on every axis. -/
def AABB.WellFormed (a : AABB Dim α) : Prop := ∀ i, a.min i ≤ a.max i

/-! ## contains.hpp -/

/-- `contains(AABB a, AABB b)`, contains.hpp:151. -/
def contains_AABB_AABB (a b : AABB Dim α) : Bool :=
  all (lessThanEqual a.min b.min) && all (lessThanEqual b.max a.max)

/-- `contains(AABB a, Sphere b)`, contains.hpp:157. -/
def contains_AABB_Sphere (a : AABB Dim α) (b : Sphere Dim α) : Bool :=
  contains_AABB_AABB a ⟨b.min, b.max⟩

/-- `contains(AABB a, Vec b)`, contains.hpp:205. -/
def contains_AABB_Vec (a : AABB Dim α) (b : Vec Dim α) : Bool :=
  all (vand (lessThanEqual a.min b) (lessThanEqual b a.max))

/-- `contains(Sphere a, Sphere b)`, contains.hpp:228. -/
def contains_Sphere_Sphere (sqrt : α → α) (a b : Sphere Dim α) : Bool :=
  decide (a.radius ≥ distance_Vec_Vec sqrt a.center b.center + b.radius)

/-- The loop of `contains(Frustum a, Sphere b)` over the plane indices still to visit: the
first plane with `std::abs(d) < b.radius` returns `false`. -/
def contains_Frustum_Sphere_loop (a : Frustum Dim α) (b : Sphere Dim α) :
    List (Fin (Dim * 2)) → Bool
  | [] => true
  | i :: rest =>
    let d := dot (a.planes i).normal b.center - (a.planes i).distance
    if |d| < b.radius then false else contains_Frustum_Sphere_loop a b rest

/-- `contains(Frustum a, Sphere b)`, contains.hpp:395: the loop over `i = 0, ..., 2 * Dim - 1`. -/
def contains_Frustum_Sphere (a : Frustum Dim α) (b : Sphere Dim α) : Bool :=
  contains_Frustum_Sphere_loop a b (List.finRange (Dim * 2))

/-- The loop of `contains(Frustum a, Vec b)` over the plane indices still to visit: the first
plane with `d > 0` returns `false`. -/
def contains_Frustum_Vec_loop (a : Frustum Dim α) (b : Vec Dim α) :
    List (Fin (Dim * 2)) → Bool
  | [] => true
  | i :: rest =>
    let d := dot (a.planes i).normal b - (a.planes i).distance
    if d > 0 then false else contains_Frustum_Vec_loop a b rest

/-- `contains(Frustum a, Vec b)`, contains.hpp:463: the loop over `i = 0, ..., 2 * Dim - 1`. -/
def contains_Frustum_Vec (a : Frustum Dim α) (b : Vec Dim α) : Bool :=
  contains_Frustum_Vec_loop a b (List.finRange (Dim * 2))

/-! ## distance.hpp -/

/-- `distanceSquared(AABB a, AABB b)`, distance.hpp:78.  The source reads component `0` before
its loop over `i = 1, ..., Dim - 1`, so the dimension is `n + 1`. -/
def distanceSquared_AABB_AABB {n : Nat} (a b : AABB (n + 1) α) : α :=
  let delta := fdim (a.min 0) (b.max 0) + fdim (b.min 0) (a.max 0)
  let result := delta * delta
  Fin.foldl n (fun result i =>
    let delta := fdim (a.min i.succ) (b.max i.succ) + fdim (b.min i.succ) (a.max i.succ)
    result + delta * delta) result

/-- `distance(AABB a, AABB b)`, distance.hpp:90. -/
def distance_AABB_AABB {n : Nat} (sqrt : α → α) (a b : AABB (n + 1) α) : α :=
  sqrt (distanceSquared_AABB_AABB a b)

/-- `distanceSquared(AABB a, Vec b)`, distance.hpp:183. -/
def distanceSquared_AABB_Vec (a : AABB Dim α) (b : Vec Dim α) : α :=
  distanceSquared_Vec_Vec (clamp b a.min a.max) b

/-- `distance(AABB a, Vec b)`, distance.hpp:189. -/
def distance_AABB_Vec (sqrt : α → α) (a : AABB Dim α) (b : Vec Dim α) : α :=
  sqrt (distanceSquared_AABB_Vec a b)

/-- `distance(AABB a, Sphere b)`, distance.hpp:103. -/
def distance_AABB_Sphere (sqrt : α → α) (a : AABB Dim α) (b : Sphere Dim α) : α :=
  fdim (distance_AABB_Vec sqrt a b.center) b.radius

/-- `distanceSquared(AABB a, Sphere b)`, distance.hpp:96. -/
def distanceSquared_AABB_Sphere (sqrt : α → α) (a : AABB Dim α) (b : Sphere Dim α) : α :=
  let dist := distance_AABB_Sphere sqrt a b
  dist * dist

/-- `distance(Sphere a, Sphere b)`, distance.hpp:221. -/
def distance_Sphere_Sphere (sqrt : α → α) (a b : Sphere Dim α) : α :=
  fdim (distance_Vec_Vec sqrt a.center b.center) (a.radius + b.radius)

/-- `distanceSquared(Sphere a, Sphere b)`, distance.hpp:213. -/
def distanceSquared_Sphere_Sphere (sqrt : α → α) (a b : Sphere Dim α) : α :=
  let dist := distance_Sphere_Sphere sqrt a b
  dist * dist

/-- `distance(Sphere a, Vec b)`, distance.hpp:312. -/
def distance_Sphere_Vec (sqrt : α → α) (a : Sphere Dim α) (b : Vec Dim α) : α :=
  fdim (distance_Vec_Vec sqrt a.center b) a.radius

/-- `distanceSquared(Sphere a, Vec b)`, distance.hpp:305. -/
def distanceSquared_Sphere_Vec (sqrt : α → α) (a : Sphere Dim α) (b : Vec Dim α) : α :=
  let dist := distance_Sphere_Vec sqrt a b
  dist * dist

/-- `distanceSquared(Sphere a, AABB b)`, distance.hpp:201. -/
def distanceSquared_Sphere_AABB (sqrt : α → α) (a : Sphere Dim α) (b : AABB Dim α) : α :=
  distanceSquared_AABB_Sphere sqrt b a

/-- `distance(Sphere a, AABB b)`, distance.hpp:207. -/
def distance_Sphere_AABB (sqrt : α → α) (a : Sphere Dim α) (b : AABB Dim α) : α :=
  distance_AABB_Sphere sqrt b a

/-- `distanceSquared(LineSegment a, Vec b)`, distance.hpp:567. -/
def distanceSquared_LineSegment_Vec (a : LineSegment Dim α) (b : Vec Dim α) : α :=
  let l2 := distanceSquared_Vec_Vec a.start a.end_
  if 0 = l2 then distanceSquared_Vec_Vec b a.start
  else
    let t := max 0 (min 1 (dot (b - a.start) (a.end_ - a.start) / l2))
    let projection := a.start + t • (a.end_ - a.start)
    distanceSquared_Vec_Vec b projection

/-- `distanceSquared(LineSegment a, Frustum b)`, distance.hpp:487.  The canonical overload
`distance(Frustum, LineSegment)` that the body calls is not defined in the sources and is the
parameter `distance_Frustum_LineSegment`. -/
def distanceSquared_LineSegment_Frustum
    (distance_Frustum_LineSegment : Frustum Dim α → LineSegment Dim α → α)
    (a : LineSegment Dim α) (b : Frustum Dim α) : α :=
  distance_Frustum_LineSegment b a

/-- `distance(LineSegment a, Frustum b)`, distance.hpp:494, over the same parameter. -/
def distance_LineSegment_Frustum
    (distance_Frustum_LineSegment : Frustum Dim α → LineSegment Dim α → α)
    (a : LineSegment Dim α) (b : Frustum Dim α) : α :=
  distance_Frustum_LineSegment b a

/-- `distanceSquared(Vec a, AABB b)`, distance.hpp:1066. -/
def distanceSquared_Vec_AABB (a : Vec Dim α) (b : AABB Dim α) : α :=
  distanceSquared_AABB_Vec b a

/-- `distance(Vec a, AABB b)`, distance.hpp:1072. -/
def distance_Vec_AABB (sqrt : α → α) (a : Vec Dim α) (b : AABB Dim α) : α :=
  distance_AABB_Vec sqrt b a

/-- `distanceSquared(Vec a, Sphere b)`, distance.hpp:1078. -/
def distanceSquared_Vec_Sphere (sqrt : α → α) (a : Vec Dim α) (b : Sphere Dim α) : α :=
  distanceSquared_Sphere_Vec sqrt b a

/-- `distance(Vec a, Sphere b)`, distance.hpp:1084. -/
def distance_Vec_Sphere (sqrt : α → α) (a : Vec Dim α) (b : Sphere Dim α) : α :=
  distance_Sphere_Vec sqrt b a

/-- `distanceSquared(Vec a, LineSegment b)`, distance.hpp:1102. -/
def distanceSquared_Vec_LineSegment (a : Vec Dim α) (b : LineSegment Dim α) : α :=
  distanceSquared_LineSegment_Vec b a

/-- `contains(Sphere a, Vec b)`, contains.hpp:288; the call `distanceSquared(a, b)` has a
sphere and a vector as arguments, so it is the overload of distance.hpp:305. -/
def contains_Sphere_Vec (sqrt : α → α) (a : Sphere Dim α) (b : Vec Dim α) : Bool :=
  decide (distanceSquared_Sphere_Vec sqrt a b ≤ a.radius * a.radius)

/-- `contains(AABB a, LineSegment b)`, contains.hpp:175. -/
def contains_AABB_LineSegment (a : AABB Dim α) (b : LineSegment Dim α) : Bool :=
  contains_AABB_Vec a b.start && contains_AABB_Vec a b.end_

/-- `contains(Sphere a, Capsule b)`, contains.hpp:234. -/
def contains_Sphere_Capsule (sqrt : α → α) (a : Sphere Dim α) (b : Capsule Dim α) : Bool :=
  decide (distance_Vec_Vec sqrt a.center b.start + b.radius ≤ a.radius) &&
    decide (distance_Vec_Vec sqrt a.center b.end_ + b.radius ≤ a.radius)

/-- `contains(Sphere a, LineSegment b)`, contains.hpp:252. -/
def contains_Sphere_LineSegment (sqrt : α → α) (a : Sphere Dim α) (b : LineSegment Dim α) :
    Bool :=
  contains_Sphere_Vec sqrt a b.start && contains_Sphere_Vec sqrt a b.end_

/-- `contains(Sphere a, Triangle b)`, contains.hpp:282. -/
def contains_Sphere_Triangle (sqrt : α → α) (a : Sphere Dim α) (b : Triangle Dim α) : Bool :=
  contains_Sphere_Vec sqrt a (b.points 0) && contains_Sphere_Vec sqrt a (b.points 1) &&
    contains_Sphere_Vec sqrt a (b.points 2)

/-- `contains(Capsule a, Vec b)`, contains.hpp:372. -/
def contains_Capsule_Vec (a : Capsule Dim α) (b : Vec Dim α) : Bool :=
  decide (distanceSquared_LineSegment_Vec ⟨a.start, a.end_⟩ b ≤ a.radius * a.radius)

/-- `contains(Frustum a, LineSegment b)`, contains.hpp:427. -/
def contains_Frustum_LineSegment (a : Frustum Dim α) (b : LineSegment Dim α) : Bool :=
  contains_Frustum_Vec a b.start && contains_Frustum_Vec a b.end_

/-- `contains(Ray a, Ray b)`, contains.hpp:743. -/
def contains_Ray_Ray (a b : Ray Dim α) : Bool := a.beq b

/-- `contains(Ray a, Vec b)`, contains.hpp:755. -/
def contains_Ray_Vec (sqrt : α → α) (a : Ray Dim α) (b : Vec Dim α) : Bool :=
  if veq a.origin b then true
  else
    let direction := normalize sqrt (b - a.origin)
    decide (1 = dot direction a.direction)

/-- `contains(Vec a, Sphere b)`, contains.hpp:847. -/
def contains_Vec_Sphere (a : Vec Dim α) (b : Sphere Dim α) : Bool :=
  decide (0 = b.radius) && veq a b.center

/-- `contains(Vec a, Capsule b)`, contains.hpp:853. -/
def contains_Vec_Capsule (a : Vec Dim α) (b : Capsule Dim α) : Bool :=
  decide (0 = b.radius) && veq a b.start && veq a b.end_

/-- `contains(Vec a, LineSegment b)`, contains.hpp:865. -/
def contains_Vec_LineSegment (a : Vec Dim α) (b : LineSegment Dim α) : Bool :=
  veq a b.start && veq a b.end_

/-- `contains(Vec a, Triangle b)`, contains.hpp:889. -/
def contains_Vec_Triangle (a : Vec Dim α) (b : Triangle Dim α) : Bool :=
  veq a (b.points 0) && veq a (b.points 1) && veq a (b.points 2)

/-- `contains(Vec a, Vec b)`, contains.hpp:895: `all` of the componentwise equality. -/
def contains_Vec_Vec (a b : Vec Dim α) : Bool := all fun i => decide (a i = b i)

/-! ## contains.hpp: corner loops, point containers and unbounded contained shapes -/

/-- The loop of `contains(Sphere a, AABB b)` over the corners still to visit: the first corner
that `a` does not contain returns `false`. -/
def contains_Sphere_AABB_loop (sqrt : α → α) (a : Sphere Dim α) : List (Vec Dim α) → Bool
  | [] => true
  | c :: rest =>
    if !contains_Sphere_Vec sqrt a c then false else contains_Sphere_AABB_loop sqrt a rest

/-- `contains(Sphere a, AABB b)`, contains.hpp:217. -/
def contains_Sphere_AABB (sqrt : α → α) (a : Sphere Dim α) (b : AABB Dim α) : Bool :=
  contains_Sphere_AABB_loop sqrt a (corners b)

/-- The loop of `contains(Capsule a, AABB b)` over the corners still to visit. -/
def contains_Capsule_AABB_loop (a : Capsule Dim α) : List (Vec Dim α) → Bool
  | [] => true
  | c :: rest => if !contains_Capsule_Vec a c then false else contains_Capsule_AABB_loop a rest

/-- `contains(Capsule a, AABB b)`, contains.hpp:300. -/
def contains_Capsule_AABB (a : Capsule Dim α) (b : AABB Dim α) : Bool :=
  contains_Capsule_AABB_loop a (corners b)

/-- The loop of `contains(Frustum a, AABB b)` over the corners still to visit. -/
def contains_Frustum_AABB_loop (a : Frustum Dim α) : List (Vec Dim α) → Bool
  | [] => true
  | c :: rest => if !contains_Frustum_Vec a c then false else contains_Frustum_AABB_loop a rest

/-- `contains(Frustum a, AABB b)`, contains.hpp:384. -/
def contains_Frustum_AABB (a : Frustum Dim α) (b : AABB Dim α) : Bool :=
  contains_Frustum_AABB_loop a (corners b)

/-- `contains(Vec a, AABB b)`, contains.hpp:841. -/
def contains_Vec_AABB (a : Vec Dim α) (b : AABB Dim α) : Bool :=
  veq a b.min && veq a b.max

/-- `contains(AABB<3> a, Plane b)`, contains.hpp:187. -/
def contains_AABB_Plane (_a : AABB 3 α) (_b : Plane 3 α) : Bool := false

/-- `contains(AABB a, Ray b)`, contains.hpp:193. -/
def contains_AABB_Ray (_a : AABB Dim α) (_b : Ray Dim α) : Bool := false

/-- `contains(Sphere<3> a, Plane b)`, contains.hpp:270. -/
def contains_Sphere_Plane (_a : Sphere 3 α) (_b : Plane 3 α) : Bool := false

/-- `contains(Sphere a, Ray b)`, contains.hpp:276. -/
def contains_Sphere_Ray (_a : Sphere Dim α) (_b : Ray Dim α) : Bool := false

/-- `contains(Capsule<3> a, Plane b)`, contains.hpp:354. -/
def contains_Capsule_Plane (_a : Capsule 3 α) (_b : Plane 3 α) : Bool := false

/-- `contains(Capsule a, Ray b)`, contains.hpp:360. -/
def contains_Capsule_Ray (_a : Capsule Dim α) (_b : Ray Dim α) : Bool := false

/-- `contains(Frustum<3> a, Plane b)`, contains.hpp:445. -/
def contains_Frustum_Plane (_a : Frustum 3 α) (_b : Plane 3 α) : Bool := false

/-- `contains(Frustum a, Ray b)`, contains.hpp:451. -/
def contains_Frustum_Ray (_a : Frustum Dim α) (_b : Ray Dim α) : Bool := false

/-- `contains(LineSegment<3> a, Plane b)`, contains.hpp:525. -/
def contains_LineSegment_Plane (_a : LineSegment 3 α) (_b : Plane 3 α) : Bool := false

/-- `contains(LineSegment a, Ray b)`, contains.hpp:531. -/
def contains_LineSegment_Ray (_a : LineSegment Dim α) (_b : Ray Dim α) : Bool := false

/-- `contains(OBB<3> a, Plane b)`, contains.hpp:604. -/
def contains_OBB_Plane (_a : OBB 3 α) (_b : Plane 3 α) : Bool := false

/-- `contains(OBB a, Ray b)`, contains.hpp:610. -/
def contains_OBB_Ray (_a : OBB Dim α) (_b : Ray Dim α) : Bool := false

/-- `contains(Ray<3> a, Plane b)`, contains.hpp:737. -/
def contains_Ray_Plane (_a : Ray 3 α) (_b : Plane 3 α) : Bool := false

/-- `contains(Triangle<3> a, Plane b)`, contains.hpp:810. -/
def contains_Triangle_Plane (_a : Triangle 3 α) (_b : Plane 3 α) : Bool := false

/-- `contains(Triangle a, Ray b)`, contains.hpp:816. -/
def contains_Triangle_Ray (_a : Triangle Dim α) (_b : Ray Dim α) : Bool := false

/-- `contains(Vec<3> a, Plane b)`, contains.hpp:877. -/
def contains_Vec_Plane (_a : Vec 3 α) (_b : Plane 3 α) : Bool := false

/-- `contains(Vec a, Ray b)`, contains.hpp:883. -/
def contains_Vec_Ray (_a : Vec Dim α) (_b : Ray Dim α) : Bool := false

/-! ## detail/helper.hpp -/

/-- The loop of `detail::intersectsLine` over the axis indices still to visit, carrying the
current `t_near` and `t_far`.  The vectors have `Dim` components: reading component `i` with
`i ≥ Dim` has no defined value, and the result is then `none`. -/
def intersectsLine_loop (aabb : AABB Dim α) (ray : Ray Dim α) :
    List Nat → α → α → Option Bool
  | [], _, _ => some true
  | i :: rest, t_near, t_far =>
    if h : i < Dim then
      if 0 ≠ ray.direction ⟨i, h⟩ then
        let reciprocal_direction := 1 / ray.direction ⟨i, h⟩
        let t1 := (aabb.min ⟨i, h⟩ - ray.origin ⟨i, h⟩) * reciprocal_direction
        let t2 := (aabb.max ⟨i, h⟩ - ray.origin ⟨i, h⟩) * reciprocal_direction
        let t_near1 := if t1 < t2 then max t1 t_near else max t2 t_near
        let t_far1 := if t1 < t2 then min t2 t_far else min t1 t_far
        if t_near1 > t_far1 then some false
        else intersectsLine_loop aabb ray rest t_near1 t_far1
      else if aabb.min ⟨i, h⟩ > ray.origin ⟨i, h⟩ ∨ aabb.max ⟨i, h⟩ < ray.origin ⟨i, h⟩ then
        some false
      else intersectsLine_loop aabb ray rest t_near t_far
    else none

/-- `detail::intersectsLine(aabb, ray, t_near, t_far)`, helper.hpp:61: the loop
`for (i = 0; 3 > i; ++i)` visits the axes `0`, `1`, `2` whatever `Dim` is. -/
def intersectsLine (aabb : AABB Dim α) (ray : Ray Dim α) (t_near t_far : α) : Option Bool :=
  intersectsLine_loop aabb ray [0, 1, 2] t_near t_far

/-! ## The two divisions of the sources, with the zero divisor made explicit -/

theorem all_eq_true_iff (v : Fin Dim → Bool) : all v = true ↔ ∀ i, v i = true := by
  simp [all]

theorem contains_AABB_AABB_eq_true (a b : AABB Dim α) :
    contains_AABB_AABB a b = true ↔ (∀ i, a.min i ≤ b.min i) ∧ (∀ i, b.max i ≤ a.max i) := by
  simp [contains_AABB_AABB, all, lessThanEqual]

theorem contains_AABB_Vec_eq_true (a : AABB Dim α) (p : Vec Dim α) :
    contains_AABB_Vec a p = true ↔ ∀ i, a.min i ≤ p i ∧ p i ≤ a.max i := by
  simp [contains_AABB_Vec, all, vand, lessThanEqual]

theorem fdim_eq_max (x y : α) : fdim x y = max 0 (x - y) := by
  unfold fdim
  split_ifs with h
  · exact (max_eq_right (sub_nonneg.2 (le_of_lt h))).symm
  · exact (max_eq_left (sub_nonpos.2 (not_lt.1 h))).symm

theorem fdim_nonneg (x y : α) : 0 ≤ fdim x y := by
  rw [fdim_eq_max]; exact le_max_left _ _

theorem fdim_eq_zero_iff (x y : α) : fdim x y = 0 ↔ x ≤ y := by
  unfold fdim
  split_ifs with h
  · exact ⟨fun h0 => absurd (sub_eq_zero.1 h0) (ne_of_gt h), fun hle => absurd h (not_lt.2 hle)⟩
  · exact ⟨fun _ => not_lt.1 h, fun _ => rfl⟩

/-- A left fold that starts from component `0` and adds the components `1, ..., n` in order
is the sum over all components. -/
theorem foldl_add_succ_eq_sum {n : Nat} (f : Fin (n + 1) → α) :
    Fin.foldl n (fun r i => r + f i.succ) (f 0) = ∑ i, f i := by
  induction n with
  | zero => simp
  | succ k ih =>
    rw [Fin.foldl_succ_last, Fin.sum_univ_castSucc]
    have h := ih (fun i => f i.castSucc)
    simp only [Fin.succ_last, Fin.succ_castSucc, Fin.castSucc_zero] at h ⊢
    rw [h]

theorem distanceSquared_AABB_AABB_eq_sum {n : Nat} (a b : AABB (n + 1) α) :
    distanceSquared_AABB_AABB a b =
      ∑ i, (fdim (a.min i) (b.max i) + fdim (b.min i) (a.max i)) *
        (fdim (a.min i) (b.max i) + fdim (b.min i) (a.max i)) := by
  unfold distanceSquared_AABB_AABB
  exact foldl_add_succ_eq_sum
    (fun i => (fdim (a.min i) (b.max i) + fdim (b.min i) (a.max i)) *
      (fdim (a.min i) (b.max i) + fdim (b.min i) (a.max i)))

theorem distanceSquared_Vec_Vec_nonneg (a b : Vec Dim α) : 0 ≤ distanceSquared_Vec_Vec a b :=
  Finset.sum_nonneg fun _ _ => mul_self_nonneg _

theorem distanceSquared_Vec_Vec_self (a : Vec Dim α) : distanceSquared_Vec_Vec a a = 0 := by
  simp [distanceSquared_Vec_Vec]

theorem clamp_eq_self (x lo hi : Vec Dim α) (h : ∀ i, lo i ≤ x i ∧ x i ≤ hi i) :
    clamp x lo hi = x := by
  funext i
  simp [clamp, (h i).1, (h i).2]

theorem contains_Sphere_Sphere_eq_true (sqrt : α → α) (a b : Sphere Dim α) :
    contains_Sphere_Sphere sqrt a b = true ↔
      distance_Vec_Vec sqrt a.center b.center + b.radius ≤ a.radius := by
  simp [contains_Sphere_Sphere]

/-- What `contains(Sphere, Vec)` computes for a non-negative radius: the point is accepted up
to twice the radius from the centre. -/
theorem contains_Sphere_Vec_eq_true (sqrt : α → α) (a : Sphere Dim α) (p : Vec Dim α)
    (hr : 0 ≤ a.radius) :
    contains_Sphere_Vec sqrt a p = true ↔ distance_Vec_Vec sqrt a.center p ≤ 2 * a.radius := by
  simp only [contains_Sphere_Vec, distanceSquared_Sphere_Vec, distance_Sphere_Vec,
    decide_eq_true_eq]
  rw [← abs_le_iff_mul_self_le, abs_of_nonneg (fdim_nonneg _ _), abs_of_nonneg hr,
    fdim_eq_max, max_le_iff]
  constructor
  · intro h; linarith [h.2]
  · intro h; exact ⟨hr, by linarith⟩

theorem contains_Frustum_Sphere_loop_eq_true (a : Frustum Dim α) (b : Sphere Dim α)
    (l : List (Fin (Dim * 2))) :
    contains_Frustum_Sphere_loop a b l = true ↔
      ∀ i ∈ l, b.radius ≤ |dot (a.planes i).normal b.center - (a.planes i).distance| := by
  induction l with
  | nil => simp [contains_Frustum_Sphere_loop]
  | cons j rest ih =>
    simp only [contains_Frustum_Sphere_loop, List.mem_cons, forall_eq_or_imp]
    split_ifs with h
    · simp [not_le.2 h]
    · rw [ih]; simp [not_lt.1 h]

theorem contains_Frustum_Vec_loop_eq_true (a : Frustum Dim α) (b : Vec Dim α)
    (l : List (Fin (Dim * 2))) :
    contains_Frustum_Vec_loop a b l = true ↔
      ∀ i ∈ l, dot (a.planes i).normal b - (a.planes i).distance ≤ 0 := by
  induction l with
  | nil => simp [contains_Frustum_Vec_loop]
  | cons j rest ih =>
    simp only [contains_Frustum_Vec_loop, List.mem_cons, forall_eq_or_imp]
    split_ifs with h
    · simp [not_le.2 h]
    · rw [ih]; simp [not_lt.1 h]

theorem contains_Frustum_Sphere_eq_true (a : Frustum Dim α) (b : Sphere Dim α) :
    contains_Frustum_Sphere a b = true ↔
      ∀ i, b.radius ≤ |dot (a.planes i).normal b.center - (a.planes i).distance| := by
  simp [contains_Frustum_Sphere, contains_Frustum_Sphere_loop_eq_true, List.mem_finRange]

theorem contains_Frustum_Vec_eq_true (a : Frustum Dim α) (b : Vec Dim α) :
    contains_Frustum_Vec a b = true ↔
      ∀ i, dot (a.planes i).normal b - (a.planes i).distance ≤ 0 := by
  simp [contains_Frustum_Vec, contains_Frustum_Vec_loop_eq_true, List.mem_finRange]

/-- On one axis, the gap of `distanceSquared(AABB, AABB)` is at most the distance between
any coordinate in the first range and any coordinate in the second. -/
theorem gap_mul_self_le (amin amax bmin bmax x y : α) (hx : amin ≤ x ∧ x ≤ amax)
    (hy : bmin ≤ y ∧ y ≤ bmax) :
    (fdim amin bmax + fdim bmin amax) * (fdim amin bmax + fdim bmin amax) ≤
      (x - y) * (x - y) := by
  have hg : fdim amin bmax + fdim bmin amax ≤ |x - y| := by
    rw [fdim_eq_max, fdim_eq_max]
    rcases le_total amin bmax with h1 | h1 <;> rcases le_total bmin amax with h2 | h2
    · rw [max_eq_left (sub_nonpos.2 h1), max_eq_left (sub_nonpos.2 h2)]
      simp
    · rw [max_eq_left (sub_nonpos.2 h1), max_eq_right (sub_nonneg.2 h2), zero_add,
        abs_sub_comm]
      exact le_trans (by linarith [hx.2, hy.1]) (le_abs_self _)
    · rw [max_eq_right (sub_nonneg.2 h1), max_eq_left (sub_nonpos.2 h2), add_zero]
      exact le_trans (by linarith [hx.1, hy.2]) (le_abs_self _)
    · have : amin = bmax := le_antisymm (by linarith [hx.1, hx.2, hy.1, hy.2]) h1
      have : bmin = amax := le_antisymm (by linarith [hx.1, hx.2, hy.1, hy.2]) h2
      subst_vars
      simp
  have h0 : 0 ≤ fdim amin bmax + fdim bmin amax :=
    add_nonneg (fdim_nonneg _ _) (fdim_nonneg _ _)
  rw [← abs_le_iff_mul_self_le, abs_of_nonneg h0]
  exact hg

/-- On one axis with well-formed ranges, the gap of `distanceSquared(AABB, AABB)` is attained
by a coordinate of the first range and a coordinate of the second. -/
theorem gap_attained (amin amax bmin bmax : α) (ha : amin ≤ amax) (hb : bmin ≤ bmax) :
    ∃ x y : α, (amin ≤ x ∧ x ≤ amax) ∧ (bmin ≤ y ∧ y ≤ bmax) ∧
      (x - y) * (x - y) =
        (fdim amin bmax + fdim bmin amax) * (fdim amin bmax + fdim bmin amax) := by
  by_cases h1 : amin > bmax
  · refine ⟨amin, bmax, ⟨le_refl _, ha⟩, ⟨hb, le_refl _⟩, ?_⟩
    have h2 : fdim bmin amax = 0 := (fdim_eq_zero_iff _ _).2 (by linarith)
    rw [h2, fdim, if_pos h1, add_zero]
  · by_cases h2 : bmin > amax
    · refine ⟨amax, bmin, ⟨ha, le_refl _⟩, ⟨le_refl _, hb⟩, ?_⟩
      have h3 : fdim amin bmax = 0 := (fdim_eq_zero_iff _ _).2 (not_lt.1 h1)
      rw [h3, fdim, if_pos h2, zero_add]
      ring
    · refine ⟨max amin bmin, max amin bmin,
        ⟨le_max_left _ _, max_le ha (not_lt.1 h2)⟩,
        ⟨le_max_right _ _, max_le (not_lt.1 h1) hb⟩, ?_⟩
      rw [(fdim_eq_zero_iff _ _).2 (not_lt.1 h1), (fdim_eq_zero_iff _ _).2 (not_lt.1 h2)]
      ring

theorem distanceSquared_Vec_Vec_comm (a b : Vec Dim α) :
    distanceSquared_Vec_Vec a b = distanceSquared_Vec_Vec b a := by
  unfold distanceSquared_Vec_Vec
  exact Finset.sum_congr rfl fun i _ => by ring

theorem distanceSquared_Vec_Vec_eq_zero_iff (a b : Vec Dim α) :
    distanceSquared_Vec_Vec a b = 0 ↔ a = b := by
  unfold distanceSquared_Vec_Vec
  rw [Finset.sum_eq_zero_iff_of_nonneg fun i _ => mul_self_nonneg _]
  constructor
  · intro h
    funext i
    exact sub_eq_zero.1 (mul_self_eq_zero.1 (h i (Finset.mem_univ i)))
  · rintro rfl i _
    simp

/-- The squared distance from `p` to the point of parameter `t` on the line through `s` and
`e` is a quadratic polynomial in `t`. -/
theorem sum_sq_param_eq (s e p : Vec Dim α) (t : α) :
    ∑ i, (p i - (s i + t * (e i - s i))) ^ 2 =
      distanceSquared_Vec_Vec p s - 2 * t * dot (p - s) (e - s) +
        t ^ 2 * distanceSquared_Vec_Vec s e := by
  unfold distanceSquared_Vec_Vec dot
  rw [Finset.mul_sum, Finset.mul_sum, ← Finset.sum_sub_distrib, ← Finset.sum_add_distrib]
  refine Finset.sum_congr rfl fun i _ => ?_
  simp only [Pi.sub_apply]
  ring

/-- A quadratic `W - 2 t D + t² L` with `L > 0` restricted to `[0, 1]` is least at the vertex
`D / L` clamped into `[0, 1]`. -/
theorem quadratic_clamp_le (W D L t : α) (hL : 0 < L) (h0 : 0 ≤ t) (h1 : t ≤ 1) :
    W - 2 * max 0 (min 1 (D / L)) * D + max 0 (min 1 (D / L)) ^ 2 * L ≤
      W - 2 * t * D + t ^ 2 * L := by
  have hD : D = D / L * L := by field_simp
  generalize D / L = u at hD
  subst hD
  rcases le_total u 0 with hu | hu
  · rw [max_eq_left (le_trans (min_le_right _ _) hu)]
    nlinarith [mul_nonneg h0 (mul_nonneg (neg_nonneg.2 hu) hL.le),
      mul_nonneg (sq_nonneg t) hL.le]
  · rcases le_total u 1 with hu1 | hu1
    · rw [min_eq_right hu1, max_eq_right hu]
      nlinarith [mul_nonneg (sq_nonneg (t - u)) hL.le]
    · rw [min_eq_left hu1, max_eq_right zero_le_one]
      nlinarith [mul_nonneg (mul_nonneg (sub_nonneg.2 h1) hL.le)
        (add_nonneg (sub_nonneg.2 hu1) (sub_nonneg.2 (h1.trans hu1)))]

theorem distanceSquared_AABB_AABB_nonneg {n : Nat} (a b : AABB (n + 1) α) :
    0 ≤ distanceSquared_AABB_AABB a b := by
  rw [distanceSquared_AABB_AABB_eq_sum]
  exact Finset.sum_nonneg fun _ _ => mul_self_nonneg _

theorem distanceSquared_LineSegment_Vec_nonneg (s : LineSegment Dim α) (p : Vec Dim α) :
    0 ≤ distanceSquared_LineSegment_Vec s p := by
  unfold distanceSquared_LineSegment_Vec
  simp only
  split_ifs
  · exact distanceSquared_Vec_Vec_nonneg _ _
  · exact distanceSquared_Vec_Vec_nonneg _ _

theorem veq_eq_true (a b : Vec Dim α) : veq a b = true ↔ a = b := by
  simp [veq, funext_iff]

theorem contains_Vec_Vec_eq_true (a b : Vec Dim α) : contains_Vec_Vec a b = true ↔ a = b := by
  simp [contains_Vec_Vec, all, funext_iff]

theorem fdim_zero_right (x : α) (hx : 0 ≤ x) : fdim x 0 = x := by
  rw [fdim_eq_max, sub_zero, max_eq_right hx]

theorem distanceSquared_Vec_Vec_eq_sum_sq (a b : Vec Dim α) :
    distanceSquared_Vec_Vec a b = ∑ i, (a i - b i) ^ 2 :=
  Finset.sum_congr rfl fun _ _ => (sq _).symm

theorem distance_Vec_Vec_nonneg (a b : Vec Dim ℝ) : 0 ≤ distance_Vec_Vec Real.sqrt a b :=
  Real.sqrt_nonneg _

theorem distance_Vec_Vec_comm (sqrt : α → α) (a b : Vec Dim α) :
    distance_Vec_Vec sqrt a b = distance_Vec_Vec sqrt b a := by
  rw [distance_Vec_Vec, distance_Vec_Vec, distanceSquared_Vec_Vec_comm]

theorem distance_Vec_Vec_eq_zero_iff (a b : Vec Dim ℝ) :
    distance_Vec_Vec Real.sqrt a b = 0 ↔ a = b := by
  rw [distance_Vec_Vec, Real.sqrt_eq_zero (distanceSquared_Vec_Vec_nonneg a b),
    distanceSquared_Vec_Vec_eq_zero_iff]

theorem distance_Vec_Vec_add_le_zero_iff (a b : Vec Dim ℝ) (r : ℝ) (hr : 0 ≤ r) :
    distance_Vec_Vec Real.sqrt a b + r ≤ 0 ↔ r = 0 ∧ a = b := by
  rw [← distance_Vec_Vec_eq_zero_iff]
  have hd := distance_Vec_Vec_nonneg a b
  constructor
  · intro h
    exact ⟨by linarith, by linarith⟩
  · rintro ⟨h1, h2⟩
    rw [h1, h2, add_zero]

/-- A sphere of radius zero contains exactly its centre. -/
theorem contains_Sphere_Vec_radius_zero (C p : Vec Dim ℝ) :
    contains_Sphere_Vec Real.sqrt ⟨C, 0⟩ p = true ↔ C = p := by
  rw [contains_Sphere_Vec_eq_true _ _ _ (le_refl (0 : ℝ)), mul_zero,
    ← distance_Vec_Vec_eq_zero_iff]
  exact ⟨fun h => le_antisymm h (distance_Vec_Vec_nonneg C p), fun h => h.le⟩

theorem dot_self_nonneg (v : Vec Dim α) : 0 ≤ dot v v :=
  Finset.sum_nonneg fun _ _ => mul_self_nonneg _

theorem dot_self_eq_zero_iff (v : Vec Dim α) : dot v v = 0 ↔ v = 0 := by
  unfold dot
  rw [Finset.sum_eq_zero_iff_of_nonneg fun i _ => mul_self_nonneg _]
  constructor
  · intro h
    funext i
    exact mul_self_eq_zero.1 (h i (Finset.mem_univ i))
  · rintro rfl i _
    simp

theorem dot_self_eq_sum_sq (v : Vec Dim α) : dot v v = ∑ i, v i ^ 2 :=
  Finset.sum_congr rfl fun _ _ => (sq _).symm

theorem length_eq_zero_iff (v : Vec Dim ℝ) : length Real.sqrt v = 0 ↔ v = 0 := by
  rw [length, Real.sqrt_eq_zero (dot_self_nonneg v), dot_self_eq_zero_iff]

theorem length_pos (v : Vec Dim ℝ) (hv : v ≠ 0) : 0 < length Real.sqrt v :=
  lt_of_le_of_ne (Real.sqrt_nonneg _) fun h => hv ((length_eq_zero_iff v).1 h.symm)

/-- The normalisation of a non-zero real vector has unit length. -/
theorem dot_normalize_self (v : Vec Dim ℝ) (hv : v ≠ 0) :
    dot (normalize Real.sqrt v) (normalize Real.sqrt v) = 1 := by
  have hl := length_pos v hv
  have hsq : length Real.sqrt v * length Real.sqrt v = dot v v :=
    Real.mul_self_sqrt (dot_self_nonneg v)
  have h : dot (normalize Real.sqrt v) (normalize Real.sqrt v) =
      dot v v / (length Real.sqrt v * length Real.sqrt v) := by
    unfold dot normalize
    rw [Finset.sum_div]
    exact Finset.sum_congr rfl fun i _ => by field_simp
  rw [h, hsq, div_self]
  rw [← hsq]
  exact (mul_pos hl hl).ne.symm

/-- Two unit vectors have dot product `1` exactly when they are equal. -/
theorem dot_eq_one_iff_eq (u d : Vec Dim α) (hu : dot u u = 1) (hd : dot d d = 1) :
    1 = dot u d ↔ u = d := by
  have h : distanceSquared_Vec_Vec u d = dot u u - 2 * dot u d + dot d d := by
    unfold distanceSquared_Vec_Vec dot
    rw [Finset.mul_sum, ← Finset.sum_sub_distrib, ← Finset.sum_add_distrib]
    exact Finset.sum_congr rfl fun i _ => by ring
  rw [← distanceSquared_Vec_Vec_eq_zero_iff, h, hu, hd]
  constructor
  · intro h1; rw [← h1]; ring
  · intro h1; linarith

/-- What `contains(Ray, Vec)` computes for a ray of unit direction. -/
theorem contains_Ray_Vec_eq_true (r : Ray Dim ℝ) (p : Vec Dim ℝ)
    (hd : dot r.direction r.direction = 1) :
    contains_Ray_Vec Real.sqrt r p = true ↔
      p = r.origin ∨ normalize Real.sqrt (p - r.origin) = r.direction := by
  unfold contains_Ray_Vec
  by_cases h : r.origin = p
  · rw [if_pos ((veq_eq_true _ _).2 h)]
    exact ⟨fun _ => Or.inl h.symm, fun _ => rfl⟩
  · have hv : veq r.origin p = false := by
      rw [← Bool.not_eq_true, veq_eq_true]; exact h
    have hne : p - r.origin ≠ 0 := fun h0 => h (sub_eq_zero.1 h0).symm
    simp only [hv, Bool.false_eq_true, if_false, decide_eq_true_eq]
    rw [dot_eq_one_iff_eq _ _ (dot_normalize_self _ hne) hd]
    exact ⟨fun h1 => Or.inr h1, fun h1 => h1.resolve_left fun h2 => h h2.symm⟩

/-- For a ray of unit direction, `contains(Ray, Vec)` accepts exactly the points
`origin + t * direction` with `t ≥ 0`. -/
theorem contains_Ray_Vec_eq_true_iff_param (r : Ray Dim ℝ) (p : Vec Dim ℝ)
    (hd : dot r.direction r.direction = 1) :
    contains_Ray_Vec Real.sqrt r p = true ↔
      ∃ t : ℝ, 0 ≤ t ∧ p = r.origin + t • r.direction := by
  rw [contains_Ray_Vec_eq_true r p hd]
  constructor
  · rintro (h | h)
    · exact ⟨0, le_refl _, by rw [h, zero_smul, add_zero]⟩
    · refine ⟨length Real.sqrt (p - r.origin), Real.sqrt_nonneg _, ?_⟩
      by_cases h0 : p - r.origin = 0
      · rw [(length_eq_zero_iff _).2 h0, zero_smul, add_zero]
        exact sub_eq_zero.1 h0
      · have hl := (length_pos _ h0).ne.symm
        funext i
        rw [← h]
        simp only [Pi.add_apply, Pi.smul_apply, smul_eq_mul, normalize, Pi.sub_apply]
        field_simp
  · rintro ⟨t, ht, hp⟩
    rcases eq_or_lt_of_le ht with h0 | h0
    · left
      rw [hp, ← h0, zero_smul, add_zero]
    · right
      have hsub : p - r.origin = t • r.direction := by rw [hp]; simp
      have hdot : dot (t • r.direction) (t • r.direction) = t * t := by
        have : dot (t • r.direction) (t • r.direction) =
            t * t * dot r.direction r.direction := by
          unfold dot
          rw [Finset.mul_sum]
          exact Finset.sum_congr rfl fun i _ => by
            simp only [Pi.smul_apply, smul_eq_mul]; ring
        rw [this, hd, mul_one]
      have hlen : length Real.sqrt (t • r.direction) = t := by
        rw [length, hdot, Real.sqrt_mul_self ht]
      funext i
      rw [hsub]
      simp only [normalize, hlen, Pi.smul_apply, smul_eq_mul]
      field_simp

/-- The value of `distanceSquared(LineSegment, Vec)` is at most the squared distance to any
point of the segment. -/
theorem distanceSquared_LineSegment_Vec_le_param (s : LineSegment Dim α) (p : Vec Dim α)
    (t : α) (h0 : 0 ≤ t) (h1 : t ≤ 1) :
    distanceSquared_LineSegment_Vec s p ≤
      ∑ i, (p i - (s.start i + t * (s.end_ i - s.start i))) ^ 2 := by
  unfold distanceSquared_LineSegment_Vec
  by_cases h : (0 : α) = distanceSquared_Vec_Vec s.start s.end_
  · simp only [if_pos h]
    have he : s.start = s.end_ := (distanceSquared_Vec_Vec_eq_zero_iff _ _).1 h.symm
    rw [distanceSquared_Vec_Vec_eq_sum_sq]
    refine le_of_eq (Finset.sum_congr rfl fun i _ => ?_)
    rw [← he]; ring
  · simp only [if_neg h]
    have hpos : 0 < distanceSquared_Vec_Vec s.start s.end_ :=
      lt_of_le_of_ne (distanceSquared_Vec_Vec_nonneg _ _) h
    rw [distanceSquared_Vec_Vec_eq_sum_sq]
    simp only [Pi.add_apply, Pi.smul_apply, smul_eq_mul, Pi.sub_apply]
    rw [sum_sq_param_eq, sum_sq_param_eq]
    exact quadratic_clamp_le _ _ _ t hpos h0 h1

/-- The value of `distanceSquared(LineSegment, Vec)` is the squared distance to some point of
the segment. -/
theorem distanceSquared_LineSegment_Vec_exists_param (s : LineSegment Dim α)
    (p : Vec Dim α) :
    ∃ t : α, 0 ≤ t ∧ t ≤ 1 ∧ distanceSquared_LineSegment_Vec s p =
      ∑ i, (p i - (s.start i + t * (s.end_ i - s.start i))) ^ 2 := by
  unfold distanceSquared_LineSegment_Vec
  by_cases h : (0 : α) = distanceSquared_Vec_Vec s.start s.end_
  · simp only [if_pos h]
    refine ⟨0, le_refl _, zero_le_one, ?_⟩
    rw [distanceSquared_Vec_Vec_eq_sum_sq]
    exact Finset.sum_congr rfl fun i _ => by ring
  · simp only [if_neg h]
    refine ⟨max 0 (min 1 (dot (p - s.start) (s.end_ - s.start) /
      distanceSquared_Vec_Vec s.start s.end_)), le_max_left _ _,
      max_le zero_le_one (min_le_left _ _), ?_⟩
    rw [distanceSquared_Vec_Vec_eq_sum_sq]
    rfl

theorem dot_add_smul_sub (n s e : Vec Dim α) (t : α) :
    dot n (s + t • (e - s)) = (1 - t) * dot n s + t * dot n e := by
  unfold dot
  rw [Finset.mul_sum, Finset.mul_sum, ← Finset.sum_add_distrib]
  exact Finset.sum_congr rfl fun i _ => by
    simp only [Pi.add_apply, Pi.smul_apply, smul_eq_mul, Pi.sub_apply]; ring

/-! ### Euclidean geometry of the sphere-capsule test -/

/-- In a real normed space with a unit vector, some point within `r` of `x` lies at distance
`‖c - x‖ + r` from `c`. -/
theorem exists_far_point {E : Type} [NormedAddCommGroup E] [NormedSpace ℝ E] (u : E)
    (hu : ‖u‖ = 1) (c x : E) (r : ℝ) (hr : 0 ≤ r) :
    ∃ q : E, ‖q - x‖ ≤ r ∧ ‖q - c‖ = ‖c - x‖ + r := by
  by_cases h : x = c
  · refine ⟨x + r • u, ?_, ?_⟩
    · rw [add_sub_cancel_left, norm_smul, hu, mul_one, Real.norm_of_nonneg hr]
    · rw [h, add_sub_cancel_left, norm_smul, hu, mul_one, Real.norm_of_nonneg hr, sub_self,
        norm_zero, zero_add]
  · have hpos : 0 < ‖x - c‖ := norm_pos_iff.2 (sub_ne_zero.2 h)
    refine ⟨x + (r / ‖x - c‖) • (x - c), ?_, ?_⟩
    · rw [add_sub_cancel_left, norm_smul, Real.norm_of_nonneg (div_nonneg hr hpos.le),
        div_mul_cancel₀ _ hpos.ne.symm]
    · have h1 : x + (r / ‖x - c‖) • (x - c) - c = (1 + r / ‖x - c‖) • (x - c) := by
        rw [add_smul, one_smul]; abel
      rw [h1, norm_smul, Real.norm_of_nonneg (add_nonneg zero_le_one (div_nonneg hr hpos.le)),
        add_mul, one_mul, div_mul_cancel₀ _ hpos.ne.symm, norm_sub_rev c x]

/-- In a real normed space the ball of radius `R` around `c` contains all points within `r`
of the segment from `s` to `e` exactly when it contains the balls of radius `r` around `s` and
around `e`. -/
theorem ball_contains_capsule_iff {E : Type} [NormedAddCommGroup E] [NormedSpace ℝ E] (u : E)
    (hu : ‖u‖ = 1) (c s e : E) (R r : ℝ) (hr : 0 ≤ r) :
    (‖c - s‖ + r ≤ R ∧ ‖c - e‖ + r ≤ R) ↔
      ∀ q : E, (∃ t : ℝ, 0 ≤ t ∧ t ≤ 1 ∧ ‖q - (s + t • (e - s))‖ ≤ r) → ‖q - c‖ ≤ R := by
  constructor
  · rintro ⟨h1, h2⟩ q ⟨t, h0, ht1, hq⟩
    have hx : s + t • (e - s) - c = (1 - t) • (s - c) + t • (e - c) := by
      simp only [smul_sub, sub_smul, one_smul]; abel
    have hxn : ‖s + t • (e - s) - c‖ ≤ (1 - t) * ‖c - s‖ + t * ‖c - e‖ := by
      rw [hx]
      refine (norm_add_le _ _).trans ?_
      rw [norm_smul, norm_smul, Real.norm_of_nonneg h0,
        Real.norm_of_nonneg (sub_nonneg.2 ht1), norm_sub_rev s c, norm_sub_rev e c]
    have hq2 : ‖q - c‖ ≤ ‖q - (s + t • (e - s))‖ + ‖s + t • (e - s) - c‖ := by
      have : q - c = (q - (s + t • (e - s))) + (s + t • (e - s) - c) := by abel
      rw [this]
      exact norm_add_le _ _
    nlinarith [mul_nonneg h0 (sub_nonneg.2 h2), mul_nonneg (sub_nonneg.2 ht1) (sub_nonneg.2 h1)]
  · intro h
    constructor
    · obtain ⟨q, hq1, hq2⟩ := exists_far_point u hu c s r hr
      rw [← hq2]
      exact h q ⟨0, le_refl _, zero_le_one, by rwa [zero_smul, add_zero]⟩
    · obtain ⟨q, hq1, hq2⟩ := exists_far_point u hu c e r hr
      rw [← hq2]
      exact h q ⟨1, zero_le_one, le_refl _, by rwa [one_smul, add_sub_cancel]⟩

theorem sqrt_sum_sq_sub_eq_norm {n : Nat} (a b : Fin n → ℝ) :
    Real.sqrt (∑ i, (a i - b i) ^ 2) =
      ‖(WithLp.equiv 2 (Fin n → ℝ)).symm a - (WithLp.equiv 2 (Fin n → ℝ)).symm b‖ := by
  rw [EuclideanSpace.norm_eq]
  simp [sq_abs]

theorem sqrt_sum_sq_param_eq_norm {n : Nat} (q s e : Fin n → ℝ) (t : ℝ) :
    Real.sqrt (∑ i, (q i - (s i + t * (e i - s i))) ^ 2) =
      ‖(WithLp.equiv 2 (Fin n → ℝ)).symm q - ((WithLp.equiv 2 (Fin n → ℝ)).symm s +
        t • ((WithLp.equiv 2 (Fin n → ℝ)).symm e - (WithLp.equiv 2 (Fin n → ℝ)).symm s))‖ := by
  rw [EuclideanSpace.norm_eq]
  simp [sq_abs]

theorem forall_vec_iff_forall_euclidean {n : Nat} (P : EuclideanSpace ℝ (Fin n) → Prop) :
    (∀ q : Fin n → ℝ, P ((WithLp.equiv 2 (Fin n → ℝ)).symm q)) ↔ ∀ q, P q :=
  ⟨fun h q => by simpa using h (WithLp.equiv 2 (Fin n → ℝ) q), fun h q => h _⟩

/-! ### Corner loops, preorders and the degenerate box -/

theorem contains_Sphere_AABB_loop_eq_all (sqrt : α → α) (a : Sphere Dim α)
    (l : List (Vec Dim α)) :
    contains_Sphere_AABB_loop sqrt a l = l.all fun c => contains_Sphere_Vec sqrt a c := by
  induction l with
  | nil => rfl
  | cons c rest ih =>
    rw [contains_Sphere_AABB_loop, List.all_cons, ih]
    cases contains_Sphere_Vec sqrt a c <;> rfl

theorem contains_Capsule_AABB_loop_eq_all (a : Capsule Dim α) (l : List (Vec Dim α)) :
    contains_Capsule_AABB_loop a l = l.all fun c => contains_Capsule_Vec a c := by
  induction l with
  | nil => rfl
  | cons c rest ih =>
    rw [contains_Capsule_AABB_loop, List.all_cons, ih]
    cases contains_Capsule_Vec a c <;> rfl

theorem contains_Frustum_AABB_loop_eq_all (a : Frustum Dim α) (l : List (Vec Dim α)) :
    contains_Frustum_AABB_loop a l = l.all fun c => contains_Frustum_Vec a c := by
  induction l with
  | nil => rfl
  | cons c rest ih =>
    rw [contains_Frustum_AABB_loop, List.all_cons, ih]
    cases contains_Frustum_Vec a c <;> rfl

theorem contains_Vec_AABB_eq_true (a : Vec Dim α) (b : AABB Dim α) :
    contains_Vec_AABB a b = true ↔ b.min = a ∧ b.max = a := by
  rw [contains_Vec_AABB, Bool.and_eq_true, veq_eq_true, veq_eq_true]
  exact ⟨fun h => ⟨h.1.symm, h.2.symm⟩, fun h => ⟨h.1.symm, h.2.symm⟩⟩

theorem distance_Vec_Vec_eq_norm {n : Nat} (a b : Vec n ℝ) :
    distance_Vec_Vec Real.sqrt a b =
      ‖(WithLp.equiv 2 (Fin n → ℝ)).symm a - (WithLp.equiv 2 (Fin n → ℝ)).symm b‖ := by
  rw [distance_Vec_Vec, distanceSquared_Vec_Vec_eq_sum_sq, sqrt_sum_sq_sub_eq_norm]

theorem distance_Vec_Vec_triangle (a b c : Vec Dim ℝ) :
    distance_Vec_Vec Real.sqrt a c ≤
      distance_Vec_Vec Real.sqrt a b + distance_Vec_Vec Real.sqrt b c := by
  rw [distance_Vec_Vec_eq_norm, distance_Vec_Vec_eq_norm, distance_Vec_Vec_eq_norm]
  exact norm_sub_le_norm_sub_add_norm_sub _ _ _

/-- On one axis with `lo ≤ hi`, the box-box gap against the degenerate range `[x, x]` is the
distance from `x` to its clamped value. -/
theorem gap_point_eq_clamp (lo hi x : α) (h : lo ≤ hi) :
    (fdim lo x + fdim x hi) * (fdim lo x + fdim x hi) =
      (min (max x lo) hi - x) * (min (max x lo) hi - x) := by
  rcases lt_or_le x lo with h1 | h1
  · rw [fdim, if_pos h1, (fdim_eq_zero_iff x hi).2 (h1.le.trans h), max_eq_right h1.le,
      min_eq_left h, add_zero]
  · rw [(fdim_eq_zero_iff lo x).2 h1, max_eq_left h1, zero_add]
    rcases le_or_lt x hi with h2 | h2
    · rw [(fdim_eq_zero_iff x hi).2 h2, min_eq_left h2]; ring
    · rw [fdim, if_pos h2, min_eq_right h2.le]; ring

/-! ### The slab test of `detail::intersectsLine` -/

/-- On an axis with non-zero direction `d` and `mn ≤ mx`, when `t1 < t2` the parameters whose
point lies in the slab are those of `[t1, t2]`. -/
theorem slab_iff_of_lt (mn mx o d t : α) (hd : 0 ≠ d) (hwf : mn ≤ mx)
    (h12 : (mn - o) * (1 / d) < (mx - o) * (1 / d)) :
    (mn ≤ o + t * d ∧ o + t * d ≤ mx) ↔
      ((mn - o) * (1 / d) ≤ t ∧ t ≤ (mx - o) * (1 / d)) := by
  rw [mul_one_div, mul_one_div] at h12 ⊢
  rcases lt_or_gt_of_ne hd with hpos | hneg
  · rw [div_le_iff₀ hpos, le_div_iff₀ hpos]
    constructor <;> rintro ⟨h1, h2⟩ <;> constructor <;> linarith
  · exfalso
    have := div_le_div_of_nonpos_of_le hneg.le (sub_le_sub_right hwf o)
    linarith

/-- On an axis with non-zero direction `d` and `mn ≤ mx`, when not `t1 < t2` the parameters
whose point lies in the slab are those of `[t2, t1]`. -/
theorem slab_iff_of_not_lt (mn mx o d t : α) (hd : 0 ≠ d) (hwf : mn ≤ mx)
    (h12 : ¬ (mn - o) * (1 / d) < (mx - o) * (1 / d)) :
    (mn ≤ o + t * d ∧ o + t * d ≤ mx) ↔
      ((mx - o) * (1 / d) ≤ t ∧ t ≤ (mn - o) * (1 / d)) := by
  rw [mul_one_div, mul_one_div] at h12 ⊢
  rcases lt_or_gt_of_ne hd with hpos | hneg
  · have h21 : (mn - o) / d ≤ (mx - o) / d :=
      div_le_div_of_nonneg_right (sub_le_sub_right hwf o) hpos.le
    have heq : (mn - o) / d = (mx - o) / d := le_antisymm h21 (not_lt.1 h12)
    rw [heq, div_le_iff₀ hpos, le_div_iff₀ hpos]
    have hmul : mn - o = mx - o := by
      have := congrArg (fun x => x * d) heq
      simpa [div_mul_cancel₀ _ hpos.ne.symm] using this
    constructor <;> rintro ⟨h1, h2⟩ <;> constructor <;> linarith
  · rw [div_le_iff_of_neg hneg, le_div_iff_of_neg hneg]
    constructor <;> rintro ⟨h1, h2⟩ <;> constructor <;> linarith

/-- The loop of `detail::intersectsLine` on in-range axes of a well-formed box, started with
`t_near ≤ t_far`: it returns a value, and returns true exactly when some parameter between
`t_near` and `t_far` puts the point of the line inside the slab of every visited axis. -/
theorem intersectsLine_loop_spec (aabb : AABB Dim α) (ray : Ray Dim α)
    (hwf : aabb.WellFormed) (l : List Nat) (hl : ∀ i ∈ l, i < Dim) (t_near t_far : α)
    (ht : t_near ≤ t_far) :
    (intersectsLine_loop aabb ray l t_near t_far = some true ∨
      intersectsLine_loop aabb ray l t_near t_far = some false) ∧
    (intersectsLine_loop aabb ray l t_near t_far = some true ↔
      ∃ t : α, t_near ≤ t ∧ t ≤ t_far ∧ ∀ (i : Nat) (h : i < Dim), i ∈ l →
        aabb.min ⟨i, h⟩ ≤ ray.origin ⟨i, h⟩ + t * ray.direction ⟨i, h⟩ ∧
        ray.origin ⟨i, h⟩ + t * ray.direction ⟨i, h⟩ ≤ aabb.max ⟨i, h⟩) := by
  induction l generalizing t_near t_far with
  | nil =>
    refine ⟨Or.inl rfl, ?_⟩
    simp only [intersectsLine_loop, List.not_mem_nil, false_imp_iff, implies_true, and_true,
      true_iff]
    exact ⟨t_near, le_refl _, ht⟩
  | cons i rest ih =>
    have hi : i < Dim := hl i (List.mem_cons_self _ _)
    have hrest : ∀ j ∈ rest, j < Dim := fun j hj => hl j (List.mem_cons_of_mem _ hj)
    -- membership in `i :: rest` splits into the head axis and the remaining axes
    have hsplit : ∀ t : α,
        (∀ (j : Nat) (h : j < Dim), j ∈ i :: rest →
          aabb.min ⟨j, h⟩ ≤ ray.origin ⟨j, h⟩ + t * ray.direction ⟨j, h⟩ ∧
          ray.origin ⟨j, h⟩ + t * ray.direction ⟨j, h⟩ ≤ aabb.max ⟨j, h⟩) ↔
        ((aabb.min ⟨i, hi⟩ ≤ ray.origin ⟨i, hi⟩ + t * ray.direction ⟨i, hi⟩ ∧
          ray.origin ⟨i, hi⟩ + t * ray.direction ⟨i, hi⟩ ≤ aabb.max ⟨i, hi⟩) ∧
        ∀ (j : Nat) (h : j < Dim), j ∈ rest →
          aabb.min ⟨j, h⟩ ≤ ray.origin ⟨j, h⟩ + t * ray.direction ⟨j, h⟩ ∧
          ray.origin ⟨j, h⟩ + t * ray.direction ⟨j, h⟩ ≤ aabb.max ⟨j, h⟩) := by
      intro t
      constructor
      · intro h
        exact ⟨h i hi (List.mem_cons_self _ _), fun j hj hm => h j hj (List.mem_cons_of_mem _ hm)⟩
      · rintro ⟨h1, h2⟩ j hj hm
        rcases List.mem_cons.1 hm with rfl | hm
        · exact h1
        · exact h2 j hj hm
    simp only [hsplit]
    by_cases hd : 0 ≠ ray.direction ⟨i, hi⟩
    · by_cases h12 : (aabb.min ⟨i, hi⟩ - ray.origin ⟨i, hi⟩) * (1 / ray.direction ⟨i, hi⟩) <
          (aabb.max ⟨i, hi⟩ - ray.origin ⟨i, hi⟩) * (1 / ray.direction ⟨i, hi⟩)
      · have hslab := fun t => slab_iff_of_lt _ _ _ _ t hd (hwf ⟨i, hi⟩) h12
        simp only [intersectsLine_loop, dif_pos hi, if_pos hd, if_pos h12, hslab]
        split_ifs with hgt
        · refine ⟨Or.inr rfl, ?_⟩
          simp only [Option.some.injEq, Bool.false_eq_true, false_iff, not_exists]
          rintro t ⟨h1, h2, ⟨h3, h4⟩, -⟩
          exact absurd hgt (not_lt.2 ((max_le h3 h1).trans (le_min h4 h2)))
        · obtain ⟨ih1, ih2⟩ := ih hrest _ _ (not_lt.1 hgt)
          refine ⟨ih1, ih2.trans ?_⟩
          constructor
          · rintro ⟨t, h1, h2, h3⟩
            exact ⟨t, (le_max_right _ _).trans h1, h2.trans (min_le_right _ _),
              ⟨(le_max_left _ _).trans h1, h2.trans (min_le_left _ _)⟩, h3⟩
          · rintro ⟨t, h1, h2, ⟨h3, h4⟩, h5⟩
            exact ⟨t, max_le h3 h1, le_min h4 h2, h5⟩
      · have hslab := fun t => slab_iff_of_not_lt _ _ _ _ t hd (hwf ⟨i, hi⟩) h12
        simp only [intersectsLine_loop, dif_pos hi, if_pos hd, if_neg h12, hslab]
        split_ifs with hgt
        · refine ⟨Or.inr rfl, ?_⟩
          simp only [Option.some.injEq, Bool.false_eq_true, false_iff, not_exists]
          rintro t ⟨h1, h2, ⟨h3, h4⟩, -⟩
          exact absurd hgt (not_lt.2 ((max_le h3 h1).trans (le_min h4 h2)))
        · obtain ⟨ih1, ih2⟩ := ih hrest _ _ (not_lt.1 hgt)
          refine ⟨ih1, ih2.trans ?_⟩
          constructor
          · rintro ⟨t, h1, h2, h3⟩
            exact ⟨t, (le_max_right _ _).trans h1, h2.trans (min_le_right _ _),
              ⟨(le_max_left _ _).trans h1, h2.trans (min_le_left _ _)⟩, h3⟩
          · rintro ⟨t, h1, h2, ⟨h3, h4⟩, h5⟩
            exact ⟨t, max_le h3 h1, le_min h4 h2, h5⟩
    · have hd0 : ray.direction ⟨i, hi⟩ = 0 := (not_not.1 hd).symm
      simp only [intersectsLine_loop, dif_pos hi, if_neg hd]
      split_ifs with hout
      · refine ⟨Or.inr rfl, ?_⟩
        simp only [Option.some.injEq, Bool.false_eq_true, false_iff, not_exists, hd0, mul_zero,
          add_zero]
        rintro t ⟨-, -, ⟨h3, h4⟩, -⟩
        rcases hout with h | h
        · exact absurd h3 (not_le.2 h)
        · exact absurd h4 (not_le.2 h)
      · obtain ⟨ih1, ih2⟩ := ih hrest t_near t_far ht
        have hin : aabb.min ⟨i, hi⟩ ≤ ray.origin ⟨i, hi⟩ ∧
            ray.origin ⟨i, hi⟩ ≤ aabb.max ⟨i, hi⟩ := by
          rw [not_or, not_lt, not_lt] at hout
          exact hout
        refine ⟨ih1, ih2.trans ?_⟩
        simp only [hd0, mul_zero, add_zero]
        constructor
        · rintro ⟨t, h1, h2, h3⟩
          exact ⟨t, h1, h2, hin, h3⟩
        · rintro ⟨t, h1, h2, -, h3⟩
          exact ⟨t, h1, h2, h3⟩

/-! ## Claims -/

/-- C1: for every box `a` and every well-formed box `b`, `contains(a, b)` holds exactly when
every point contained in `b` is contained in `a`, and exactly when `min(a) ≤ min(b)` and
`max(b) ≤ max(a)` on every axis. -/
theorem contains_AABB_AABB_iff_points (a b : AABB Dim α) (hb : b.WellFormed) :
    (contains_AABB_AABB a b = true ↔
      ∀ p : Vec Dim α, contains_AABB_Vec b p = true → contains_AABB_Vec a p = true) ∧
    (contains_AABB_AABB a b = true ↔ ∀ i, a.min i ≤ b.min i ∧ b.max i ≤ a.max i) := by
  refine ⟨?_, ?_⟩
  · rw [contains_AABB_AABB_eq_true]
    constructor
    · rintro ⟨h1, h2⟩ p hp
      rw [contains_AABB_Vec_eq_true] at hp ⊢
      exact fun i => ⟨(h1 i).trans (hp i).1, (hp i).2.trans (h2 i)⟩
    · intro h
      have hmin := h b.min ((contains_AABB_Vec_eq_true b b.min).2 fun i => ⟨le_refl _, hb i⟩)
      have hmax := h b.max ((contains_AABB_Vec_eq_true b b.max).2 fun i => ⟨hb i, le_refl _⟩)
      rw [contains_AABB_Vec_eq_true] at hmin hmax
      exact ⟨fun i => (hmin i).1, fun i => (hmax i).2⟩
  · rw [contains_AABB_AABB_eq_true]
    exact ⟨fun h i => ⟨h.1 i, h.2 i⟩, fun h => ⟨fun i => (h i).1, fun i => (h i).2⟩⟩

/-- C1, scenario 1: the box `[(0,0,0), (1,1,1)]` contains the well-formed box
`[(0.2,0.2,0.2), (0.8,0.8,0.8)]`, hence every point of the latter. -/
theorem contains_AABB_AABB_iff_points_witness :
    (AABB.WellFormed (⟨![1/5, 1/5, 1/5], ![4/5, 4/5, 4/5]⟩ : AABB 3 ℚ)) ∧
    contains_AABB_AABB (⟨![0, 0, 0], ![1, 1, 1]⟩ : AABB 3 ℚ)
      ⟨![1/5, 1/5, 1/5], ![4/5, 4/5, 4/5]⟩ = true ∧
    (∀ p : Vec 3 ℚ, contains_AABB_Vec ⟨![1/5, 1/5, 1/5], ![4/5, 4/5, 4/5]⟩ p = true →
      contains_AABB_Vec ⟨![0, 0, 0], ![1, 1, 1]⟩ p = true) := by
  have hb : AABB.WellFormed (⟨![1/5, 1/5, 1/5], ![4/5, 4/5, 4/5]⟩ : AABB 3 ℚ) := by
    intro i; fin_cases i <;> norm_num
  have hc : contains_AABB_AABB (⟨![0, 0, 0], ![1, 1, 1]⟩ : AABB 3 ℚ)
      ⟨![1/5, 1/5, 1/5], ![4/5, 4/5, 4/5]⟩ = true := by
    rw [contains_AABB_AABB_eq_true]
    constructor <;> intro i <;> fin_cases i <;> norm_num
  exact ⟨hb, hc, (contains_AABB_AABB_iff_points _ _ hb).1.1 hc⟩

/-- C2 (defect): `contains(Sphere, Vec)` accepts the point `(2,0,0)` for the unit sphere at
the origin, although the point lies at Euclidean distance `2 > 1` from the centre. -/
theorem contains_Sphere_Vec_accepts_point_outside :
    contains_Sphere_Vec Real.sqrt (⟨![0, 0, 0], 1⟩ : Sphere 3 ℝ) ![2, 0, 0] = true ∧
    ¬ (Real.sqrt (∑ i, ((![0, 0, 0] : Vec 3 ℝ) i - (![2, 0, 0] : Vec 3 ℝ) i) ^ 2) ≤ 1) := by
  constructor
  · rw [contains_Sphere_Vec_eq_true _ _ _ (by norm_num)]
    simp [distance_Vec_Vec, distanceSquared_Vec_Vec, Fin.sum_univ_three]
  · simp [Fin.sum_univ_three]

/-- C3: containment implies distance zero for the pairs box-box (contained box well formed),
box-point, box-sphere (radius non-negative) and sphere-sphere (contained radius
non-negative); the well-formedness of the containing box and the sign of the containing
radius are not needed. -/
theorem contains_imp_distance_eq_zero {n : Nat} (a b : AABB (n + 1) ℝ) (p : Vec (n + 1) ℝ)
    (s sa sb : Sphere (n + 1) ℝ) (hb : b.WellFormed)
    (hs : 0 ≤ s.radius) (hsb : 0 ≤ sb.radius) :
    (contains_AABB_AABB a b = true → distance_AABB_AABB Real.sqrt a b = 0) ∧
    (contains_AABB_Vec a p = true → distance_AABB_Vec Real.sqrt a p = 0) ∧
    (contains_AABB_Sphere a s = true → distance_AABB_Sphere Real.sqrt a s = 0) ∧
    (contains_Sphere_Sphere Real.sqrt sa sb = true →
      distance_Sphere_Sphere Real.sqrt sa sb = 0) := by
  refine ⟨?_, ?_, ?_, ?_⟩
  · intro h
    rw [contains_AABB_AABB_eq_true] at h
    have hz : distanceSquared_AABB_AABB a b = 0 := by
      rw [distanceSquared_AABB_AABB_eq_sum]
      refine Finset.sum_eq_zero fun i _ => ?_
      have h1 : fdim (a.min i) (b.max i) = 0 :=
        (fdim_eq_zero_iff _ _).2 ((h.1 i).trans (hb i))
      have h2 : fdim (b.min i) (a.max i) = 0 :=
        (fdim_eq_zero_iff _ _).2 ((hb i).trans (h.2 i))
      rw [h1, h2]; ring
    rw [distance_AABB_AABB, hz, Real.sqrt_zero]
  · intro h
    rw [contains_AABB_Vec_eq_true] at h
    rw [distance_AABB_Vec, distanceSquared_AABB_Vec, clamp_eq_self _ _ _ h,
      distanceSquared_Vec_Vec_self, Real.sqrt_zero]
  · intro h
    rw [contains_AABB_Sphere, contains_AABB_AABB_eq_true] at h
    have hc : ∀ i, a.min i ≤ s.center i ∧ s.center i ≤ a.max i := fun i => by
      have h1 := h.1 i
      have h2 := h.2 i
      simp only [Sphere.min, Sphere.max] at h1 h2
      exact ⟨by linarith, by linarith⟩
    rw [distance_AABB_Sphere, distance_AABB_Vec, distanceSquared_AABB_Vec,
      clamp_eq_self _ _ _ hc, distanceSquared_Vec_Vec_self, Real.sqrt_zero]
    exact (fdim_eq_zero_iff _ _).2 hs
  · intro h
    rw [contains_Sphere_Sphere_eq_true] at h
    rw [distance_Sphere_Sphere]
    exact (fdim_eq_zero_iff _ _).2 (by linarith)

/-- C3 at the boxes and spheres of scenarios 1 and 2, the point `(1/2,1/2,1/2)` and the sphere
of radius `1/4` around it. -/
theorem contains_imp_distance_eq_zero_witness :
    AABB.WellFormed (⟨![1/5, 1/5, 1/5], ![4/5, 4/5, 4/5]⟩ : AABB 3 ℝ) ∧
    distance_AABB_AABB Real.sqrt (⟨![0, 0, 0], ![1, 1, 1]⟩ : AABB 3 ℝ)
      ⟨![1/5, 1/5, 1/5], ![4/5, 4/5, 4/5]⟩ = 0 ∧
    distance_AABB_Vec Real.sqrt (⟨![0, 0, 0], ![1, 1, 1]⟩ : AABB 3 ℝ) ![1/2, 1/2, 1/2] = 0 ∧
    distance_AABB_Sphere Real.sqrt (⟨![0, 0, 0], ![1, 1, 1]⟩ : AABB 3 ℝ)
      ⟨![1/2, 1/2, 1/2], 1/4⟩ = 0 ∧
    distance_Sphere_Sphere Real.sqrt (⟨![0, 0, 0], 5⟩ : Sphere 3 ℝ) ⟨![1, 0, 0], 3⟩ = 0 := by
  have hb : AABB.WellFormed (⟨![1/5, 1/5, 1/5], ![4/5, 4/5, 4/5]⟩ : AABB 3 ℝ) := by
    intro i; fin_cases i <;> norm_num
  have h := contains_imp_distance_eq_zero (⟨![0, 0, 0], ![1, 1, 1]⟩ : AABB 3 ℝ)
    ⟨![1/5, 1/5, 1/5], ![4/5, 4/5, 4/5]⟩ ![1/2, 1/2, 1/2] ⟨![1/2, 1/2, 1/2], 1/4⟩
    ⟨![0, 0, 0], 5⟩ ⟨![1, 0, 0], 3⟩ hb (by norm_num) (by norm_num)
  refine ⟨hb, h.1 ?_, h.2.1 ?_, h.2.2.1 ?_, h.2.2.2 ?_⟩
  · rw [contains_AABB_AABB_eq_true]
    constructor <;> intro i <;> fin_cases i <;> norm_num
  · rw [contains_AABB_Vec_eq_true]
    intro i; fin_cases i <;> norm_num
  · rw [contains_AABB_Sphere, contains_AABB_AABB_eq_true]
    constructor <;> intro i <;> fin_cases i <;> norm_num [Sphere.min, Sphere.max]
  · rw [contains_Sphere_Sphere_eq_true]
    simp [distance_Vec_Vec, distanceSquared_Vec_Vec, Fin.sum_univ_three]
    norm_num

/-- C4 (defect): for the unit sphere at the origin and the point `(2,0,0)`,
`contains(Sphere, Vec)` is true while `distance(Sphere, Vec)` is `1`, not `0`. -/
theorem contains_Sphere_Vec_with_positive_distance :
    contains_Sphere_Vec Real.sqrt (⟨![0, 0, 0], 1⟩ : Sphere 3 ℝ) ![2, 0, 0] = true ∧
    distance_Sphere_Vec Real.sqrt (⟨![0, 0, 0], 1⟩ : Sphere 3 ℝ) ![2, 0, 0] = 1 := by
  constructor
  · rw [contains_Sphere_Vec_eq_true _ _ _ (by norm_num)]
    simp [distance_Vec_Vec, distanceSquared_Vec_Vec, Fin.sum_univ_three]
  · simp [distance_Sphere_Vec, distance_Vec_Vec, distanceSquared_Vec_Vec, Fin.sum_univ_three,
      fdim]
    norm_num

/-- C5: `contains(Sphere a, Sphere b)` holds exactly when the Euclidean distance between the
centres plus `b.radius` is at most `a.radius`; scenario 2: the sphere of radius `5` at the
origin contains the sphere of radius `3` at `(1,0,0)`. -/
theorem contains_Sphere_Sphere_iff :
    (∀ (Dim : Nat) (a b : Sphere Dim ℝ), contains_Sphere_Sphere Real.sqrt a b = true ↔
      Real.sqrt (∑ i, (a.center i - b.center i) ^ 2) + b.radius ≤ a.radius) ∧
    contains_Sphere_Sphere Real.sqrt (⟨![0, 0, 0], 5⟩ : Sphere 3 ℝ) ⟨![1, 0, 0], 3⟩ = true := by
  constructor
  · intro Dim a b
    rw [contains_Sphere_Sphere_eq_true]
    simp only [distance_Vec_Vec, distanceSquared_Vec_Vec, sq]
  · rw [contains_Sphere_Sphere_eq_true]
    simp [distance_Vec_Vec, distanceSquared_Vec_Vec, Fin.sum_univ_three]
    norm_num

/-- C6: `contains(Frustum f, Vec p)` holds exactly when the signed distance
`dot(f[i].normal, p) - f[i].distance` is `≤ 0` for every plane index `i < 2 * Dim`; a signed
distance `0` (point on the plane) does not reject. -/
theorem contains_Frustum_Vec_iff (f : Frustum Dim α) (p : Vec Dim α) :
    contains_Frustum_Vec f p = true ↔
      ∀ i : Fin (Dim * 2), (∑ k, (f.planes i).normal k * p k) - (f.planes i).distance ≤ 0 := by
  rw [contains_Frustum_Vec_eq_true]
  simp only [dot]

/-- C7: `contains(Frustum f, Sphere s)` is true exactly when every plane has
`|dot(f[i].normal, s.center) - f[i].distance| ≥ s.radius`, and false exactly when some plane
has this absolute signed distance strictly below the radius. -/
theorem contains_Frustum_Sphere_iff (f : Frustum Dim α) (s : Sphere Dim α) :
    (contains_Frustum_Sphere f s = true ↔ ∀ i : Fin (Dim * 2),
      |(∑ k, (f.planes i).normal k * s.center k) - (f.planes i).distance| ≥ s.radius) ∧
    (contains_Frustum_Sphere f s = false ↔ ∃ i : Fin (Dim * 2),
      |(∑ k, (f.planes i).normal k * s.center k) - (f.planes i).distance| < s.radius) := by
  have h := contains_Frustum_Sphere_eq_true f s
  simp only [dot] at h
  refine ⟨h, ?_⟩
  rw [← Bool.not_eq_true, h]
  push_neg
  rfl

/-- C8 (defect): for the frustum whose six planes bound the cube `[-1,1]^3` (outward unit
normals, offsets `1`) and the unit sphere centred at `(5,0,0)`, which lies wholly outside,
`contains(Frustum, Sphere)` is true although `contains(Frustum, Vec)` rejects the centre. -/
theorem contains_Frustum_Sphere_accepts_outside_sphere :
    contains_Frustum_Sphere
      (⟨![⟨![1, 0, 0], 1⟩, ⟨![-1, 0, 0], 1⟩, ⟨![0, 1, 0], 1⟩, ⟨![0, -1, 0], 1⟩,
        ⟨![0, 0, 1], 1⟩, ⟨![0, 0, -1], 1⟩]⟩ : Frustum 3 ℚ) ⟨![5, 0, 0], 1⟩ = true ∧
    contains_Frustum_Vec
      (⟨![⟨![1, 0, 0], 1⟩, ⟨![-1, 0, 0], 1⟩, ⟨![0, 1, 0], 1⟩, ⟨![0, -1, 0], 1⟩,
        ⟨![0, 0, 1], 1⟩, ⟨![0, 0, -1], 1⟩]⟩ : Frustum 3 ℚ) ![5, 0, 0] = false := by
  constructor
  · rw [contains_Frustum_Sphere_eq_true]
    show ∀ i : Fin 6, _
    simp [Fin.forall_fin_succ, dot, Fin.sum_univ_three]
    norm_num
  · rw [← Bool.not_eq_true, contains_Frustum_Vec_eq_true]
    intro h
    have h0 := h 0
    simp [dot, Fin.sum_univ_three] at h0

/-- C9: for well-formed boxes `a` and `b`, `distanceSquared(AABB a, AABB b)` is the minimum
squared Euclidean distance between a point of `a` and a point of `b`: it is a lower bound
for every such pair and some pair attains it. -/
theorem distanceSquared_AABB_AABB_is_minimum {n : Nat} (a b : AABB (n + 1) α)
    (ha : a.WellFormed) (hb : b.WellFormed) :
    (∀ p q : Vec (n + 1) α, contains_AABB_Vec a p = true → contains_AABB_Vec b q = true →
      distanceSquared_AABB_AABB a b ≤ ∑ i, (p i - q i) ^ 2) ∧
    (∃ p q : Vec (n + 1) α, contains_AABB_Vec a p = true ∧ contains_AABB_Vec b q = true ∧
      ∑ i, (p i - q i) ^ 2 = distanceSquared_AABB_AABB a b) := by
  rw [distanceSquared_AABB_AABB_eq_sum]
  constructor
  · intro p q hp hq
    rw [contains_AABB_Vec_eq_true] at hp hq
    refine Finset.sum_le_sum fun i _ => ?_
    rw [sq]
    exact gap_mul_self_le _ _ _ _ _ _ (hp i) (hq i)
  · choose x y hx hy hxy using fun i =>
      gap_attained (a.min i) (a.max i) (b.min i) (b.max i) (ha i) (hb i)
    refine ⟨x, y, (contains_AABB_Vec_eq_true a x).2 hx, (contains_AABB_Vec_eq_true b y).2 hy, ?_⟩
    refine Finset.sum_congr rfl fun i _ => ?_
    rw [sq]
    exact hxy i

/-- C9 at the unit cube and the unit cube shifted by `2` along the first axis. -/
theorem distanceSquared_AABB_AABB_is_minimum_witness :
    AABB.WellFormed (⟨![0, 0, 0], ![1, 1, 1]⟩ : AABB 3 ℚ) ∧
    AABB.WellFormed (⟨![2, 0, 0], ![3, 1, 1]⟩ : AABB 3 ℚ) ∧
    distanceSquared_AABB_AABB (⟨![0, 0, 0], ![1, 1, 1]⟩ : AABB 3 ℚ) ⟨![2, 0, 0], ![3, 1, 1]⟩ = 1 ∧
    (∀ p q : Vec 3 ℚ, contains_AABB_Vec ⟨![0, 0, 0], ![1, 1, 1]⟩ p = true →
      contains_AABB_Vec ⟨![2, 0, 0], ![3, 1, 1]⟩ q = true → 1 ≤ ∑ i, (p i - q i) ^ 2) := by
  have ha : AABB.WellFormed (⟨![0, 0, 0], ![1, 1, 1]⟩ : AABB 3 ℚ) := by
    intro i; fin_cases i <;> norm_num
  have hb : AABB.WellFormed (⟨![2, 0, 0], ![3, 1, 1]⟩ : AABB 3 ℚ) := by
    intro i; fin_cases i <;> norm_num
  have hd : distanceSquared_AABB_AABB (⟨![0, 0, 0], ![1, 1, 1]⟩ : AABB 3 ℚ)
      ⟨![2, 0, 0], ![3, 1, 1]⟩ = 1 := by
    simp [distanceSquared_AABB_AABB, Fin.foldl_succ, fdim]
    norm_num
  refine ⟨ha, hb, hd, fun p q hp hq => ?_⟩
  rw [← hd]
  exact (distanceSquared_AABB_AABB_is_minimum _ _ ha hb).1 p q hp hq

/-- C10: `distanceSquared(AABB a, AABB b)` is the sum over all axes of the squared gap
`max(0, min(a)[i] - max(b)[i]) + max(0, min(b)[i] - max(a)[i])`; every gap is non-negative,
and it is `0` exactly on the axes where the two ranges overlap. -/
theorem distanceSquared_AABB_AABB_eq_sum_sq_gaps {n : Nat} (a b : AABB (n + 1) α) :
    distanceSquared_AABB_AABB a b =
      ∑ i, (max 0 (a.min i - b.max i) + max 0 (b.min i - a.max i)) ^ 2 ∧
    ∀ i, 0 ≤ max 0 (a.min i - b.max i) + max 0 (b.min i - a.max i) ∧
      (max 0 (a.min i - b.max i) + max 0 (b.min i - a.max i) = 0 ↔
        a.min i ≤ b.max i ∧ b.min i ≤ a.max i) := by
  constructor
  · rw [distanceSquared_AABB_AABB_eq_sum]
    refine Finset.sum_congr rfl fun i _ => ?_
    rw [fdim_eq_max, fdim_eq_max, sq]
  · intro i
    have h1 : 0 ≤ max 0 (a.min i - b.max i) := le_max_left _ _
    have h2 : 0 ≤ max 0 (b.min i - a.max i) := le_max_left _ _
    refine ⟨add_nonneg h1 h2, ?_⟩
    rw [add_eq_zero_iff_of_nonneg h1 h2, ← fdim_eq_max, ← fdim_eq_max, fdim_eq_zero_iff,
      fdim_eq_zero_iff]

/-- C11: `distanceSquared(AABB a, Vec p)` is the squared Euclidean distance between `p` and
`clamp(p, min(a), max(a))`, and `distance(AABB a, Vec p)` is its square root; scenario 3: for
the box `[(0,0,0), (1,1,1)]` and the point `(2,0,0)` the squared distance is `1`. -/
theorem distanceSquared_AABB_Vec_eq_clamp :
    (∀ (Dim : Nat) (a : AABB Dim ℝ) (p : Vec Dim ℝ),
      distanceSquared_AABB_Vec a p = ∑ i, (p i - clamp p a.min a.max i) ^ 2 ∧
      distance_AABB_Vec Real.sqrt a p =
        Real.sqrt (∑ i, (p i - clamp p a.min a.max i) ^ 2)) ∧
    distanceSquared_AABB_Vec (⟨![0, 0, 0], ![1, 1, 1]⟩ : AABB 3 ℝ) ![2, 0, 0] = 1 := by
  have h : ∀ (Dim : Nat) (a : AABB Dim ℝ) (p : Vec Dim ℝ),
      distanceSquared_AABB_Vec a p = ∑ i, (p i - clamp p a.min a.max i) ^ 2 := by
    intro Dim a p
    rw [distanceSquared_AABB_Vec, distanceSquared_Vec_Vec_comm, distanceSquared_Vec_Vec]
    exact Finset.sum_congr rfl fun i _ => (sq _).symm
  refine ⟨fun Dim a p => ⟨h Dim a p, ?_⟩, ?_⟩
  · rw [distance_AABB_Vec, h]
  · rw [h]
    simp [clamp, Fin.sum_univ_three]
    norm_num

/-- C12: `distanceSquared(LineSegment s, Vec p)` is the minimum over `t` in `[0, 1]` of the
squared distance from `p` to `s.start + t * (s.end - s.start)`: it is a lower bound for every
such `t`, some such `t` attains it, for `start ≠ end` it is the value at
`t = max(0, min(1, dot(p - start, end - start) / |end - start|^2))`, and for `start = end` it
is the squared distance from `p` to `start`. -/
theorem distanceSquared_LineSegment_Vec_is_minimum (s : LineSegment Dim α) (p : Vec Dim α) :
    (∀ t : α, 0 ≤ t → t ≤ 1 → distanceSquared_LineSegment_Vec s p ≤
      ∑ i, (p i - (s.start i + t * (s.end_ i - s.start i))) ^ 2) ∧
    (∃ t : α, 0 ≤ t ∧ t ≤ 1 ∧ distanceSquared_LineSegment_Vec s p =
      ∑ i, (p i - (s.start i + t * (s.end_ i - s.start i))) ^ 2) ∧
    (s.start ≠ s.end_ → distanceSquared_LineSegment_Vec s p =
      ∑ i, (p i - (s.start i +
        max 0 (min 1 ((∑ k, (p k - s.start k) * (s.end_ k - s.start k)) /
          (∑ k, (s.end_ k - s.start k) ^ 2))) * (s.end_ i - s.start i))) ^ 2) ∧
    (s.start = s.end_ → distanceSquared_LineSegment_Vec s p = ∑ i, (p i - s.start i) ^ 2) := by
  have hsq : ∀ x : Vec Dim α, distanceSquared_Vec_Vec p x = ∑ i, (p i - x i) ^ 2 := fun x =>
    Finset.sum_congr rfl fun i _ => (sq _).symm
  have hl2 : ∑ k, (s.end_ k - s.start k) ^ 2 = distanceSquared_Vec_Vec s.start s.end_ := by
    rw [distanceSquared_Vec_Vec_comm]
    exact Finset.sum_congr rfl fun i _ => sq _
  -- the value computed on the two branches of the source
  have hdeg : s.start = s.end_ →
      distanceSquared_LineSegment_Vec s p = ∑ i, (p i - s.start i) ^ 2 := by
    intro he
    have h0 : (0 : α) = distanceSquared_Vec_Vec s.start s.end_ :=
      ((distanceSquared_Vec_Vec_eq_zero_iff _ _).2 he).symm
    rw [distanceSquared_LineSegment_Vec]
    simp only [if_pos h0]
    exact hsq _
  have hgen : s.start ≠ s.end_ → distanceSquared_LineSegment_Vec s p =
      ∑ i, (p i - (s.start i +
        max 0 (min 1 (dot (p - s.start) (s.end_ - s.start) /
          distanceSquared_Vec_Vec s.start s.end_)) * (s.end_ i - s.start i))) ^ 2 := by
    intro hne
    have h0 : ¬ (0 : α) = distanceSquared_Vec_Vec s.start s.end_ := fun h =>
      hne ((distanceSquared_Vec_Vec_eq_zero_iff _ _).1 h.symm)
    rw [distanceSquared_LineSegment_Vec]
    simp only [if_neg h0]
    rw [hsq]
    rfl
  by_cases he : s.start = s.end_
  · have hconst : ∀ t : α, ∑ i, (p i - (s.start i + t * (s.end_ i - s.start i))) ^ 2 =
        ∑ i, (p i - s.start i) ^ 2 := by
      intro t
      refine Finset.sum_congr rfl fun i _ => ?_
      rw [← he]; ring
    refine ⟨fun t _ _ => ?_, ⟨0, le_refl _, zero_le_one, ?_⟩, fun hne => absurd he hne, hdeg⟩
    · rw [hconst, hdeg he]
    · rw [hconst, hdeg he]
  · have hpos : 0 < distanceSquared_Vec_Vec s.start s.end_ :=
      lt_of_le_of_ne (distanceSquared_Vec_Vec_nonneg _ _)
        (fun h => he ((distanceSquared_Vec_Vec_eq_zero_iff _ _).1 h.symm))
    refine ⟨fun t h0 h1 => ?_, ⟨_, le_max_left _ _, max_le zero_le_one (min_le_left _ _),
      hgen he⟩, fun _ => ?_, fun h => absurd h he⟩
    · rw [hgen he, sum_sq_param_eq, sum_sq_param_eq]
      exact quadratic_clamp_le _ _ _ t hpos h0 h1
    · rw [hgen he, hl2]
      rfl

/-- C13: `distance(Sphere a, Sphere b)` is `max(0, |a.center - b.center| - a.radius -
b.radius)` and `distance(Sphere a, Vec p)` is `max(0, |a.center - p| - a.radius)`, with
`|.|` the Euclidean norm. -/
theorem distance_Sphere_eq_max (a b : Sphere Dim ℝ) (p : Vec Dim ℝ) :
    distance_Sphere_Sphere Real.sqrt a b =
      max 0 (Real.sqrt (∑ i, (a.center i - b.center i) ^ 2) - a.radius - b.radius) ∧
    distance_Sphere_Vec Real.sqrt a p =
      max 0 (Real.sqrt (∑ i, (a.center i - p i) ^ 2) - a.radius) := by
  have hsq : ∀ x y : Vec Dim ℝ, distanceSquared_Vec_Vec x y = ∑ i, (x i - y i) ^ 2 :=
    fun x y => Finset.sum_congr rfl fun i _ => (sq _).symm
  constructor
  · rw [distance_Sphere_Sphere, fdim_eq_max, distance_Vec_Vec, hsq, sub_sub]
  · rw [distance_Sphere_Vec, fdim_eq_max, distance_Vec_Vec, hsq]

/-- C14: `distance` and `distanceSquared` are non-negative for every input, malformed boxes
and negative radii included, for the pairs box-box, box-sphere, box-point, sphere-sphere and
sphere-point, and so is `distanceSquared(LineSegment, Vec)`. -/
theorem distance_nonneg {n : Nat} (a b : AABB (n + 1) ℝ) (sa sb : Sphere (n + 1) ℝ)
    (l : LineSegment (n + 1) ℝ) (p : Vec (n + 1) ℝ) :
    (0 ≤ distanceSquared_AABB_AABB a b ∧ 0 ≤ distance_AABB_AABB Real.sqrt a b) ∧
    (0 ≤ distanceSquared_AABB_Sphere Real.sqrt a sb ∧ 0 ≤ distance_AABB_Sphere Real.sqrt a sb) ∧
    (0 ≤ distanceSquared_AABB_Vec a p ∧ 0 ≤ distance_AABB_Vec Real.sqrt a p) ∧
    (0 ≤ distanceSquared_Sphere_Sphere Real.sqrt sa sb ∧
      0 ≤ distance_Sphere_Sphere Real.sqrt sa sb) ∧
    (0 ≤ distanceSquared_Sphere_Vec Real.sqrt sa p ∧ 0 ≤ distance_Sphere_Vec Real.sqrt sa p) ∧
    0 ≤ distanceSquared_LineSegment_Vec l p :=
  ⟨⟨distanceSquared_AABB_AABB_nonneg a b, Real.sqrt_nonneg _⟩,
    ⟨mul_self_nonneg _, fdim_nonneg _ _⟩,
    ⟨distanceSquared_Vec_Vec_nonneg _ _, Real.sqrt_nonneg _⟩,
    ⟨mul_self_nonneg _, fdim_nonneg _ _⟩,
    ⟨mul_self_nonneg _, fdim_nonneg _ _⟩,
    distanceSquared_LineSegment_Vec_nonneg l p⟩

/-- C15: over the reals `distanceSquared(A, B) = distance(A, B)^2` for the pairs box-box,
box-sphere, box-point, sphere-sphere and sphere-point. -/
theorem distanceSquared_eq_distance_sq {n : Nat} (a b : AABB (n + 1) ℝ)
    (sa sb : Sphere (n + 1) ℝ) (p : Vec (n + 1) ℝ) :
    distanceSquared_AABB_AABB a b = distance_AABB_AABB Real.sqrt a b ^ 2 ∧
    distanceSquared_AABB_Sphere Real.sqrt a sb = distance_AABB_Sphere Real.sqrt a sb ^ 2 ∧
    distanceSquared_AABB_Vec a p = distance_AABB_Vec Real.sqrt a p ^ 2 ∧
    distanceSquared_Sphere_Sphere Real.sqrt sa sb = distance_Sphere_Sphere Real.sqrt sa sb ^ 2 ∧
    distanceSquared_Sphere_Vec Real.sqrt sa p = distance_Sphere_Vec Real.sqrt sa p ^ 2 := by
  refine ⟨?_, ?_, ?_, ?_, ?_⟩
  · rw [distance_AABB_AABB, Real.sq_sqrt (distanceSquared_AABB_AABB_nonneg a b)]
  · rw [distanceSquared_AABB_Sphere, sq]
  · rw [distance_AABB_Vec, Real.sq_sqrt]
    exact distanceSquared_Vec_Vec_nonneg _ _
  · rw [distanceSquared_Sphere_Sphere, sq]
  · rw [distanceSquared_Sphere_Vec, sq]

/-- C16: every mirrored ordering returns the value of the canonical ordering with the
arguments swapped: sphere-box, point-box and point-sphere for `distance` and
`distanceSquared`, and point-segment for `distanceSquared`. -/
theorem mirrored_distance_eq (sqrt : α → α) (a : AABB Dim α) (s : Sphere Dim α)
    (l : LineSegment Dim α) (p : Vec Dim α) :
    distance_Sphere_AABB sqrt s a = distance_AABB_Sphere sqrt a s ∧
    distance_Vec_AABB sqrt p a = distance_AABB_Vec sqrt a p ∧
    distance_Vec_Sphere sqrt p s = distance_Sphere_Vec sqrt s p ∧
    distanceSquared_Sphere_AABB sqrt s a = distanceSquared_AABB_Sphere sqrt a s ∧
    distanceSquared_Vec_AABB p a = distanceSquared_AABB_Vec a p ∧
    distanceSquared_Vec_Sphere sqrt p s = distanceSquared_Sphere_Vec sqrt s p ∧
    distanceSquared_Vec_LineSegment p l = distanceSquared_LineSegment_Vec l p :=
  ⟨rfl, rfl, rfl, rfl, rfl, rfl, rfl⟩

/-- C17: the same-kind pairs are symmetric: `distanceSquared` and `distance` of two boxes and
of two spheres do not depend on the order of the arguments. -/
theorem distance_same_kind_symm {n : Nat} (sqrt : α → α) (a b : AABB (n + 1) α)
    (sa sb : Sphere Dim α) :
    distanceSquared_AABB_AABB a b = distanceSquared_AABB_AABB b a ∧
    distance_AABB_AABB sqrt a b = distance_AABB_AABB sqrt b a ∧
    distance_Sphere_Sphere sqrt sa sb = distance_Sphere_Sphere sqrt sb sa ∧
    distanceSquared_Sphere_Sphere sqrt sa sb = distanceSquared_Sphere_Sphere sqrt sb sa := by
  have hbox : distanceSquared_AABB_AABB a b = distanceSquared_AABB_AABB b a := by
    rw [distanceSquared_AABB_AABB_eq_sum, distanceSquared_AABB_AABB_eq_sum]
    exact Finset.sum_congr rfl fun i _ => by ring
  have hsph : distance_Sphere_Sphere sqrt sa sb = distance_Sphere_Sphere sqrt sb sa := by
    rw [distance_Sphere_Sphere, distance_Sphere_Sphere, distance_Vec_Vec, distance_Vec_Vec,
      distanceSquared_Vec_Vec_comm, add_comm]
  refine ⟨hbox, ?_, hsph, ?_⟩
  · rw [distance_AABB_AABB, distance_AABB_AABB, hbox]
  · rw [distanceSquared_Sphere_Sphere, distanceSquared_Sphere_Sphere, hsph]

/-- C18 (defect): `distanceSquared(LineSegment a, Frustum b)` returns the canonical
`distance(b, a)` unsquared, the same value as `distance(LineSegment a, Frustum b)`; it is the
square of that distance only when the distance is `0` or `1`. -/
theorem distanceSquared_LineSegment_Frustum_returns_distance
    (distance_Frustum_LineSegment : Frustum Dim α → LineSegment Dim α → α)
    (a : LineSegment Dim α) (b : Frustum Dim α) :
    distanceSquared_LineSegment_Frustum distance_Frustum_LineSegment a b =
      distance_Frustum_LineSegment b a ∧
    distanceSquared_LineSegment_Frustum distance_Frustum_LineSegment a b =
      distance_LineSegment_Frustum distance_Frustum_LineSegment a b ∧
    (distanceSquared_LineSegment_Frustum distance_Frustum_LineSegment a b =
        distance_LineSegment_Frustum distance_Frustum_LineSegment a b ^ 2 ↔
      distance_Frustum_LineSegment b a = 0 ∨ distance_Frustum_LineSegment b a = 1) := by
  refine ⟨rfl, rfl, ?_⟩
  simp only [distanceSquared_LineSegment_Frustum, distance_LineSegment_Frustum]
  constructor
  · intro h
    rcases eq_or_ne (distance_Frustum_LineSegment b a) 0 with h0 | h0
    · exact Or.inl h0
    · right
      have h1 : distance_Frustum_LineSegment b a * (distance_Frustum_LineSegment b a - 1) = 0 := by
        linear_combination -h
      rcases mul_eq_zero.1 h1 with h2 | h2
      · exact absurd h2 h0
      · exact sub_eq_zero.1 h2
  · rintro (h | h) <;> rw [h] <;> norm_num

/-- C19 (defect): for the unit sphere at the origin and `C = (2,0,0)`, the zero-radius sphere
at `C` is not contained while the point `C` is. -/
theorem contains_Sphere_degenerate_Sphere_ne_Vec :
    contains_Sphere_Sphere Real.sqrt (⟨![0, 0, 0], 1⟩ : Sphere 3 ℝ) ⟨![2, 0, 0], 0⟩ = false ∧
    contains_Sphere_Vec Real.sqrt (⟨![0, 0, 0], 1⟩ : Sphere 3 ℝ) ![2, 0, 0] = true := by
  constructor
  · rw [← Bool.not_eq_true, contains_Sphere_Sphere_eq_true]
    simp [distance_Vec_Vec, distanceSquared_Vec_Vec, Fin.sum_univ_three]
  · rw [contains_Sphere_Vec_eq_true _ _ _ (by norm_num)]
    simp [distance_Vec_Vec, distanceSquared_Vec_Vec, Fin.sum_univ_three]

/-- C20 (defect): `contains(Frustum, Sphere)` accepts every sphere of radius `0`, whereas
`contains(Frustum, Vec)` rejects the point `(5,0,0)` for the frustum whose six planes bound
the cube `[-1,1]^3`. -/
theorem contains_Frustum_degenerate_Sphere_ne_Vec :
    (∀ (Dim : Nat) (f : Frustum Dim ℚ) (C : Vec Dim ℚ),
      contains_Frustum_Sphere f ⟨C, 0⟩ = true) ∧
    contains_Frustum_Vec
      (⟨![⟨![1, 0, 0], 1⟩, ⟨![-1, 0, 0], 1⟩, ⟨![0, 1, 0], 1⟩, ⟨![0, -1, 0], 1⟩,
        ⟨![0, 0, 1], 1⟩, ⟨![0, 0, -1], 1⟩]⟩ : Frustum 3 ℚ) ![5, 0, 0] = false := by
  constructor
  · intro Dim f C
    rw [contains_Frustum_Sphere_eq_true]
    exact fun i => abs_nonneg _
  · rw [← Bool.not_eq_true, contains_Frustum_Vec_eq_true]
    intro h
    have h0 := h 0
    simp [dot, Fin.sum_univ_three] at h0

/-- C21: a sphere of radius zero centred at `C` is contained in a box exactly when the point
`C` is: `contains(AABB a, Sphere(C, 0)) = contains(AABB a, Vec C)`. -/
theorem contains_AABB_degenerate_Sphere_eq_Vec (a : AABB Dim α) (C : Vec Dim α) :
    contains_AABB_Sphere a ⟨C, 0⟩ = contains_AABB_Vec a C := by
  rw [Bool.eq_iff_iff, contains_AABB_Sphere, contains_AABB_AABB_eq_true,
    contains_AABB_Vec_eq_true]
  simp only [Sphere.min, Sphere.max, sub_zero, add_zero]
  exact ⟨fun h i => ⟨h.1 i, h.2 i⟩, fun h => ⟨fun i => (h i).1, fun i => (h i).2⟩⟩

/-- C22: a sphere of radius zero centred at `C` contains a sphere or a capsule of non-negative
radius, a line segment, a triangle or a point exactly when the point `C` does. -/
theorem contains_degenerate_Sphere_eq_contains_Vec (C p : Vec Dim ℝ) (b : Sphere Dim ℝ)
    (c : Capsule Dim ℝ) (l : LineSegment Dim ℝ) (t : Triangle Dim ℝ)
    (hb : 0 ≤ b.radius) (hc : 0 ≤ c.radius) :
    contains_Sphere_Sphere Real.sqrt ⟨C, 0⟩ b = contains_Vec_Sphere C b ∧
    contains_Sphere_Capsule Real.sqrt ⟨C, 0⟩ c = contains_Vec_Capsule C c ∧
    contains_Sphere_LineSegment Real.sqrt ⟨C, 0⟩ l = contains_Vec_LineSegment C l ∧
    contains_Sphere_Triangle Real.sqrt ⟨C, 0⟩ t = contains_Vec_Triangle C t ∧
    contains_Sphere_Vec Real.sqrt ⟨C, 0⟩ p = contains_Vec_Vec C p := by
  refine ⟨?_, ?_, ?_, ?_, ?_⟩
  · rw [Bool.eq_iff_iff, contains_Sphere_Sphere_eq_true, contains_Vec_Sphere, Bool.and_eq_true,
      decide_eq_true_eq, veq_eq_true, distance_Vec_Vec_add_le_zero_iff _ _ _ hb]
    exact ⟨fun h => ⟨h.1.symm, h.2⟩, fun h => ⟨h.1.symm, h.2⟩⟩
  · rw [Bool.eq_iff_iff, contains_Sphere_Capsule, contains_Vec_Capsule]
    simp only [Bool.and_eq_true, decide_eq_true_eq, veq_eq_true,
      distance_Vec_Vec_add_le_zero_iff _ _ _ hc]
    exact ⟨fun h => ⟨⟨h.1.1.symm, h.1.2⟩, h.2.2⟩, fun h => ⟨⟨h.1.1.symm, h.1.2⟩, h.1.1.symm, h.2⟩⟩
  · rw [Bool.eq_iff_iff, contains_Sphere_LineSegment, contains_Vec_LineSegment]
    simp only [Bool.and_eq_true, veq_eq_true, contains_Sphere_Vec_radius_zero]
  · rw [Bool.eq_iff_iff, contains_Sphere_Triangle, contains_Vec_Triangle]
    simp only [Bool.and_eq_true, veq_eq_true, contains_Sphere_Vec_radius_zero]
  · rw [Bool.eq_iff_iff, contains_Sphere_Vec_radius_zero, contains_Vec_Vec_eq_true]

/-- C22 at `C = (1,2,3)`: every contained shape degenerates to the point `C`, so both sides
are true. -/
theorem contains_degenerate_Sphere_eq_contains_Vec_witness :
    (0 : ℝ) ≤ (⟨![1, 2, 3], 0⟩ : Sphere 3 ℝ).radius ∧
    (0 : ℝ) ≤ (⟨![1, 2, 3], ![1, 2, 3], 0⟩ : Capsule 3 ℝ).radius ∧
    contains_Sphere_Sphere Real.sqrt (⟨![1, 2, 3], 0⟩ : Sphere 3 ℝ) ⟨![1, 2, 3], 0⟩ = true ∧
    contains_Sphere_Capsule Real.sqrt (⟨![1, 2, 3], 0⟩ : Sphere 3 ℝ)
      ⟨![1, 2, 3], ![1, 2, 3], 0⟩ = true ∧
    contains_Sphere_LineSegment Real.sqrt (⟨![1, 2, 3], 0⟩ : Sphere 3 ℝ)
      ⟨![1, 2, 3], ![1, 2, 3]⟩ = true ∧
    contains_Sphere_Triangle Real.sqrt (⟨![1, 2, 3], 0⟩ : Sphere 3 ℝ)
      ⟨fun _ => ![1, 2, 3]⟩ = true ∧
    contains_Sphere_Vec Real.sqrt (⟨![1, 2, 3], 0⟩ : Sphere 3 ℝ) ![1, 2, 3] = true := by
  have h := contains_degenerate_Sphere_eq_contains_Vec (![1, 2, 3] : Vec 3 ℝ) ![1, 2, 3]
    ⟨![1, 2, 3], 0⟩ ⟨![1, 2, 3], ![1, 2, 3], 0⟩ ⟨![1, 2, 3], ![1, 2, 3]⟩
    ⟨fun _ => ![1, 2, 3]⟩ (le_refl _) (le_refl _)
  refine ⟨le_refl _, le_refl _, ?_, ?_, ?_, ?_, ?_⟩
  · rw [h.1]; simp [contains_Vec_Sphere, veq]
  · rw [h.2.1]; simp [contains_Vec_Capsule, veq]
  · rw [h.2.2.1]; simp [contains_Vec_LineSegment, veq]
  · rw [h.2.2.2.1]; simp [contains_Vec_Triangle, veq]
  · rw [h.2.2.2.2]; simp [contains_Vec_Vec, all]

/-- C23: under `distance` and `distanceSquared` a sphere of radius zero centred at `C` behaves
as the point `C`: against a point it gives the Euclidean distance (squared), against a sphere
the value of the point-sphere overload, and inside the box-sphere overload the value of the
box-point overload. -/
theorem distance_degenerate_Sphere_eq_Vec (C p : Vec Dim ℝ) (b : Sphere Dim ℝ)
    (a : AABB Dim ℝ) :
    (distance_Sphere_Vec Real.sqrt ⟨C, 0⟩ p = Real.sqrt (∑ i, (C i - p i) ^ 2) ∧
      distance_Sphere_Sphere Real.sqrt ⟨C, 0⟩ b = distance_Vec_Sphere Real.sqrt C b ∧
      distance_AABB_Sphere Real.sqrt a ⟨C, 0⟩ = distance_AABB_Vec Real.sqrt a C) ∧
    (distanceSquared_Sphere_Vec Real.sqrt ⟨C, 0⟩ p = ∑ i, (C i - p i) ^ 2 ∧
      distanceSquared_Sphere_Sphere Real.sqrt ⟨C, 0⟩ b =
        distanceSquared_Vec_Sphere Real.sqrt C b ∧
      distanceSquared_AABB_Sphere Real.sqrt a ⟨C, 0⟩ = distanceSquared_AABB_Vec a C) := by
  have h1 : distance_Sphere_Vec Real.sqrt ⟨C, 0⟩ p = Real.sqrt (∑ i, (C i - p i) ^ 2) := by
    rw [distance_Sphere_Vec, fdim_zero_right _ (distance_Vec_Vec_nonneg _ _), distance_Vec_Vec,
      distanceSquared_Vec_Vec_eq_sum_sq]
  have h2 : distance_Sphere_Sphere Real.sqrt ⟨C, 0⟩ b = distance_Vec_Sphere Real.sqrt C b := by
    rw [distance_Sphere_Sphere, distance_Vec_Sphere, distance_Sphere_Vec, zero_add,
      distance_Vec_Vec_comm]
  have h3 : distance_AABB_Sphere Real.sqrt a ⟨C, 0⟩ = distance_AABB_Vec Real.sqrt a C := by
    rw [distance_AABB_Sphere]
    exact fdim_zero_right _ (Real.sqrt_nonneg _)
  refine ⟨⟨h1, h2, h3⟩, ?_, ?_, ?_⟩
  · rw [distanceSquared_Sphere_Vec]
    simp only [h1]
    exact Real.mul_self_sqrt (Finset.sum_nonneg fun _ _ => sq_nonneg _)
  · rw [distanceSquared_Sphere_Sphere, distanceSquared_Vec_Sphere, distanceSquared_Sphere_Vec]
    simp only [h2, distance_Vec_Sphere]
  · rw [distanceSquared_AABB_Sphere]
    simp only [h3, distance_AABB_Vec]
    exact Real.mul_self_sqrt (distanceSquared_Vec_Vec_nonneg _ _)

/-- C24: for a ray `r` of unit direction, `contains(Ray r, Vec p)` holds exactly when `p` is
the origin or the normalised vector from the origin to `p` equals the direction. -/
theorem contains_Ray_Vec_iff_normalize (r : Ray Dim ℝ) (p : Vec Dim ℝ)
    (hd : ∑ i, r.direction i ^ 2 = 1) :
    contains_Ray_Vec Real.sqrt r p = true ↔
      p = r.origin ∨ normalize Real.sqrt (p - r.origin) = r.direction :=
  contains_Ray_Vec_eq_true r p ((dot_self_eq_sum_sq _).trans hd)

/-- C24 at the ray from `(1,2,3)` along `(0,1,0)`: the point `(1,4,3)`, away from the origin
of the ray, is contained because its normalised offset `(0,2,0) / 2` is the direction, and
the point `(2,2,3)` is not contained because its normalised offset is `(1,0,0)`. -/
theorem contains_Ray_Vec_iff_normalize_witness :
    ∑ i, (⟨![1, 2, 3], ![0, 1, 0]⟩ : Ray 3 ℝ).direction i ^ 2 = 1 ∧
    normalize Real.sqrt ((![1, 4, 3] : Vec 3 ℝ) - ![1, 2, 3]) = ![0, 1, 0] ∧
    contains_Ray_Vec Real.sqrt (⟨![1, 2, 3], ![0, 1, 0]⟩ : Ray 3 ℝ) ![1, 4, 3] = true ∧
    contains_Ray_Vec Real.sqrt (⟨![1, 2, 3], ![0, 1, 0]⟩ : Ray 3 ℝ) ![2, 2, 3] = false := by
  have hd : ∑ i, (⟨![1, 2, 3], ![0, 1, 0]⟩ : Ray 3 ℝ).direction i ^ 2 = 1 := by
    simp [Fin.sum_univ_three]
  have h4 : Real.sqrt 4 = 2 := by
    rw [show (4 : ℝ) = 2 * 2 by norm_num]
    exact Real.sqrt_mul_self (by norm_num)
  have hdot : dot ((![1, 4, 3] : Vec 3 ℝ) - ![1, 2, 3]) (![1, 4, 3] - ![1, 2, 3]) = 4 := by
    simp [dot, Fin.sum_univ_three]
    norm_num
  have hlen : length Real.sqrt ((![1, 4, 3] : Vec 3 ℝ) - ![1, 2, 3]) = 2 := by
    rw [length, hdot, h4]
  have hn : normalize Real.sqrt ((![1, 4, 3] : Vec 3 ℝ) - ![1, 2, 3]) = ![0, 1, 0] := by
    funext i
    rw [normalize, hlen]
    fin_cases i <;> norm_num
  refine ⟨hd, hn, (contains_Ray_Vec_iff_normalize _ _ hd).2 (Or.inr hn), ?_⟩
  rw [← Bool.not_eq_true]
  intro h
  rcases (contains_Ray_Vec_iff_normalize _ _ hd).1 h with h1 | h1
  · have := congrFun h1 0
    norm_num at this
  · have := congrFun h1 0
    have hdot2 : dot ((![2, 2, 3] : Vec 3 ℝ) - ![1, 2, 3]) (![2, 2, 3] - ![1, 2, 3]) = 1 := by
      simp [dot, Fin.sum_univ_three]
      norm_num
    have hlen2 : length Real.sqrt ((![2, 2, 3] : Vec 3 ℝ) - ![1, 2, 3]) = 1 := by
      rw [length, hdot2, Real.sqrt_one]
    rw [normalize, hlen2] at this
    norm_num at this

/-- C25: for a ray `r` of unit direction, `contains(Ray r, Vec p)` holds exactly when
`p = r.origin + t * r.direction` for some `t ≥ 0`. -/
theorem contains_Ray_Vec_iff_param (r : Ray Dim ℝ) (p : Vec Dim ℝ)
    (hd : ∑ i, r.direction i ^ 2 = 1) :
    contains_Ray_Vec Real.sqrt r p = true ↔
      ∃ t : ℝ, 0 ≤ t ∧ ∀ i, p i = r.origin i + t * r.direction i := by
  rw [contains_Ray_Vec_eq_true_iff_param r p ((dot_self_eq_sum_sq _).trans hd)]
  constructor
  · rintro ⟨t, ht, h⟩
    exact ⟨t, ht, fun i => by rw [h]; rfl⟩
  · rintro ⟨t, ht, h⟩
    exact ⟨t, ht, funext fun i => by rw [h i]; rfl⟩

/-- C25, scenario 4: the ray from the origin along `(1,0,0)` contains `(5,0,0)` and does not
contain `(-5,0,0)`. -/
theorem contains_Ray_Vec_iff_param_witness :
    ∑ i, (⟨![0, 0, 0], ![1, 0, 0]⟩ : Ray 3 ℝ).direction i ^ 2 = 1 ∧
    contains_Ray_Vec Real.sqrt (⟨![0, 0, 0], ![1, 0, 0]⟩ : Ray 3 ℝ) ![5, 0, 0] = true ∧
    contains_Ray_Vec Real.sqrt (⟨![0, 0, 0], ![1, 0, 0]⟩ : Ray 3 ℝ) ![-5, 0, 0] = false := by
  have hd : ∑ i, (⟨![0, 0, 0], ![1, 0, 0]⟩ : Ray 3 ℝ).direction i ^ 2 = 1 := by
    simp [Fin.sum_univ_three]
  refine ⟨hd, ?_, ?_⟩
  · refine (contains_Ray_Vec_iff_param _ _ hd).2 ⟨5, by norm_num, fun i => ?_⟩
    fin_cases i <;> simp
  · rw [← Bool.not_eq_true, contains_Ray_Vec_iff_param _ _ hd]
    rintro ⟨t, ht, h⟩
    have h0 := h 0
    simp at h0
    linarith

/-- C26: `contains(Ray a, Ray b)` holds exactly when origin and direction coincide; the ray
from the origin along `(1,0,0)` does not contain its sub-ray starting at `(1,0,0)`. -/
theorem contains_Ray_Ray_iff (a b : Ray Dim α) :
    (contains_Ray_Ray a b = true ↔ a.origin = b.origin ∧ a.direction = b.direction) ∧
    contains_Ray_Ray (⟨![0, 0, 0], ![1, 0, 0]⟩ : Ray 3 ℚ) ⟨![1, 0, 0], ![1, 0, 0]⟩ = false := by
  constructor
  · rw [contains_Ray_Ray, Ray.beq, Bool.and_eq_true, veq_eq_true, veq_eq_true]
  · rw [← Bool.not_eq_true, contains_Ray_Ray, Ray.beq, Bool.and_eq_true, veq_eq_true,
      veq_eq_true]
    rintro ⟨h1, -⟩
    have := congrFun h1 0
    simp at this

/-- C27: for a capsule `c` of non-negative radius, `contains(Capsule c, Vec p)` holds exactly
when some point `c.start + t * (c.end - c.start)` with `t` in `[0, 1]` is at Euclidean
distance at most `c.radius` from `p`. -/
theorem contains_Capsule_Vec_iff (c : Capsule Dim ℝ) (p : Vec Dim ℝ) (hr : 0 ≤ c.radius) :
    contains_Capsule_Vec c p = true ↔
      ∃ t : ℝ, 0 ≤ t ∧ t ≤ 1 ∧
        Real.sqrt (∑ i, (p i - (c.start i + t * (c.end_ i - c.start i))) ^ 2) ≤ c.radius := by
  rw [contains_Capsule_Vec, decide_eq_true_eq, ← sq]
  constructor
  · intro h
    obtain ⟨t, h0, h1, ht⟩ := distanceSquared_LineSegment_Vec_exists_param ⟨c.start, c.end_⟩ p
    refine ⟨t, h0, h1, Real.sqrt_le_iff.2 ⟨hr, ?_⟩⟩
    rw [← ht]
    exact h
  · rintro ⟨t, h0, h1, ht⟩
    exact (distanceSquared_LineSegment_Vec_le_param ⟨c.start, c.end_⟩ p t h0 h1).trans
      (Real.sqrt_le_iff.1 ht).2

/-- C27 at the capsule of radius `1` around the segment from `(0,0,0)` to `(2,0,0)`: the point
`(1,1,0)` is contained, being at distance `1` from `(1,0,0)`. -/
theorem contains_Capsule_Vec_iff_witness :
    (0 : ℝ) ≤ (⟨![0, 0, 0], ![2, 0, 0], 1⟩ : Capsule 3 ℝ).radius ∧
    contains_Capsule_Vec (⟨![0, 0, 0], ![2, 0, 0], 1⟩ : Capsule 3 ℝ) ![1, 1, 0] = true := by
  have hr : (0 : ℝ) ≤ (⟨![0, 0, 0], ![2, 0, 0], 1⟩ : Capsule 3 ℝ).radius := zero_le_one
  refine ⟨hr, (contains_Capsule_Vec_iff _ _ hr).2 ⟨1 / 2, by norm_num, by norm_num, ?_⟩⟩
  simp [Fin.sum_univ_three]

/-- C29: the end-point tests are exact for the convex containers: a box, and a frustum,
contains a line segment exactly when it contains every point
`s.start + t * (s.end - s.start)` with `t` in `[0, 1]`. -/
theorem contains_LineSegment_iff_all_points (a : AABB Dim α) (f : Frustum Dim α)
    (s : LineSegment Dim α) :
    (contains_AABB_LineSegment a s = true ↔ ∀ t : α, 0 ≤ t → t ≤ 1 →
      contains_AABB_Vec a (fun i => s.start i + t * (s.end_ i - s.start i)) = true) ∧
    (contains_Frustum_LineSegment f s = true ↔ ∀ t : α, 0 ≤ t → t ≤ 1 →
      contains_Frustum_Vec f (fun i => s.start i + t * (s.end_ i - s.start i)) = true) := by
  have hzero : (fun i => s.start i + 0 * (s.end_ i - s.start i)) = s.start := by
    funext i; ring
  have hone : (fun i => s.start i + 1 * (s.end_ i - s.start i)) = s.end_ := by
    funext i; ring
  constructor
  · rw [contains_AABB_LineSegment, Bool.and_eq_true]
    constructor
    · rintro ⟨hs, he⟩ t h0 h1
      rw [contains_AABB_Vec_eq_true] at hs he ⊢
      intro i
      have h1t : 0 ≤ 1 - t := sub_nonneg.2 h1
      constructor
      · nlinarith [mul_nonneg h0 (sub_nonneg.2 (he i).1), mul_nonneg h1t (sub_nonneg.2 (hs i).1)]
      · nlinarith [mul_nonneg h0 (sub_nonneg.2 (he i).2), mul_nonneg h1t (sub_nonneg.2 (hs i).2)]
    · intro h
      have hs := h 0 (le_refl _) zero_le_one
      have he := h 1 zero_le_one (le_refl _)
      rw [hzero] at hs
      rw [hone] at he
      exact ⟨hs, he⟩
  · rw [contains_Frustum_LineSegment, Bool.and_eq_true]
    constructor
    · rintro ⟨hs, he⟩ t h0 h1
      rw [contains_Frustum_Vec_eq_true] at hs he ⊢
      intro i
      have h1t : 0 ≤ 1 - t := sub_nonneg.2 h1
      have hlin := dot_add_smul_sub (f.planes i).normal s.start s.end_ t
      have hfun : (fun i => s.start i + t * (s.end_ i - s.start i)) =
          s.start + t • (s.end_ - s.start) := rfl
      rw [hfun, hlin]
      nlinarith [mul_nonneg h0 (sub_nonneg.2 (he i)), mul_nonneg h1t (sub_nonneg.2 (hs i))]
    · intro h
      have hs := h 0 (le_refl _) zero_le_one
      have he := h 1 zero_le_one (le_refl _)
      rw [hzero] at hs
      rw [hone] at he
      exact ⟨hs, he⟩

/-- C30: for a capsule `b` of non-negative radius in dimension at least one,
`contains(Sphere a, Capsule b)` holds exactly when every point within `b.radius` of the
segment from `b.start` to `b.end` is within `a.radius` of `a.center`; and it is the
conjunction of `contains(a, Sphere(b.start, b.radius))` and
`contains(a, Sphere(b.end, b.radius))`. -/
theorem contains_Sphere_Capsule_iff {n : Nat} (a : Sphere (n + 1) ℝ) (b : Capsule (n + 1) ℝ)
    (hb : 0 ≤ b.radius) :
    (contains_Sphere_Capsule Real.sqrt a b = true ↔
      ∀ q : Vec (n + 1) ℝ,
        (∃ t : ℝ, 0 ≤ t ∧ t ≤ 1 ∧
          Real.sqrt (∑ i, (q i - (b.start i + t * (b.end_ i - b.start i))) ^ 2) ≤ b.radius) →
        Real.sqrt (∑ i, (q i - a.center i) ^ 2) ≤ a.radius) ∧
    contains_Sphere_Capsule Real.sqrt a b =
      (contains_Sphere_Sphere Real.sqrt a ⟨b.start, b.radius⟩ &&
        contains_Sphere_Sphere Real.sqrt a ⟨b.end_, b.radius⟩) := by
  constructor
  · have hcode : contains_Sphere_Capsule Real.sqrt a b = true ↔
        ‖(WithLp.equiv 2 (Fin (n + 1) → ℝ)).symm a.center -
            (WithLp.equiv 2 (Fin (n + 1) → ℝ)).symm b.start‖ + b.radius ≤ a.radius ∧
        ‖(WithLp.equiv 2 (Fin (n + 1) → ℝ)).symm a.center -
            (WithLp.equiv 2 (Fin (n + 1) → ℝ)).symm b.end_‖ + b.radius ≤ a.radius := by
      simp only [contains_Sphere_Capsule, Bool.and_eq_true, decide_eq_true_eq,
        distance_Vec_Vec, distanceSquared_Vec_Vec_eq_sum_sq, sqrt_sum_sq_sub_eq_norm]
    rw [hcode, ball_contains_capsule_iff (EuclideanSpace.single 0 1) (by simp) _ _ _ _ _ hb,
      ← forall_vec_iff_forall_euclidean]
    simp only [sqrt_sum_sq_param_eq_norm, sqrt_sum_sq_sub_eq_norm]
  · simp only [contains_Sphere_Capsule, contains_Sphere_Sphere, ge_iff_le]

/-- C30 at the sphere of radius `3` at the origin and the capsule of radius `1` around the
segment from `(-1,0,0)` to `(1,0,0)`: the capsule is contained, so the point `(2,0,0)` on its
cap is within distance `3` of the origin. -/
theorem contains_Sphere_Capsule_iff_witness :
    (0 : ℝ) ≤ (⟨![-1, 0, 0], ![1, 0, 0], 1⟩ : Capsule 3 ℝ).radius ∧
    contains_Sphere_Capsule Real.sqrt (⟨![0, 0, 0], 3⟩ : Sphere 3 ℝ)
      ⟨![-1, 0, 0], ![1, 0, 0], 1⟩ = true ∧
    Real.sqrt (∑ i, ((![2, 0, 0] : Vec 3 ℝ) i - (![0, 0, 0] : Vec 3 ℝ) i) ^ 2) ≤ 3 := by
  have hr : (0 : ℝ) ≤ (⟨![-1, 0, 0], ![1, 0, 0], 1⟩ : Capsule 3 ℝ).radius := zero_le_one
  have hc : contains_Sphere_Capsule Real.sqrt (⟨![0, 0, 0], 3⟩ : Sphere 3 ℝ)
      ⟨![-1, 0, 0], ![1, 0, 0], 1⟩ = true := by
    simp [contains_Sphere_Capsule, distance_Vec_Vec, distanceSquared_Vec_Vec,
      Fin.sum_univ_three]
    norm_num
  refine ⟨hr, hc, ((contains_Sphere_Capsule_iff _ _ hr).1.1 hc) ![2, 0, 0]
    ⟨1, zero_le_one, le_refl _, ?_⟩⟩
  simp [Fin.sum_univ_three]
  norm_num

/-- C31: for a sphere, a capsule and a frustum, `contains(A, AABB b)` is the conjunction of
`contains(A, c)` over the `2 ^ Dim` corners `c` of `b`: the early-exit loop returns true
exactly when every corner is contained. -/
theorem contains_AABB_eq_all_corners (sqrt : α → α) (s : Sphere Dim α) (c : Capsule Dim α)
    (f : Frustum Dim α) (b : AABB Dim α) :
    (corners b).length = 2 ^ Dim ∧
    (contains_Sphere_AABB sqrt s b = (corners b).all (fun x => contains_Sphere_Vec sqrt s x) ∧
      contains_Capsule_AABB c b = (corners b).all (fun x => contains_Capsule_Vec c x) ∧
      contains_Frustum_AABB f b = (corners b).all (fun x => contains_Frustum_Vec f x)) ∧
    ((contains_Sphere_AABB sqrt s b = true ↔
        ∀ x ∈ corners b, contains_Sphere_Vec sqrt s x = true) ∧
      (contains_Capsule_AABB c b = true ↔ ∀ x ∈ corners b, contains_Capsule_Vec c x = true) ∧
      (contains_Frustum_AABB f b = true ↔
        ∀ x ∈ corners b, contains_Frustum_Vec f x = true)) := by
  refine ⟨by simp [corners], ⟨?_, ?_, ?_⟩, ⟨?_, ?_, ?_⟩⟩
  · exact contains_Sphere_AABB_loop_eq_all sqrt s _
  · exact contains_Capsule_AABB_loop_eq_all c _
  · exact contains_Frustum_AABB_loop_eq_all f _
  · rw [contains_Sphere_AABB, contains_Sphere_AABB_loop_eq_all, List.all_eq_true]
  · rw [contains_Capsule_AABB, contains_Capsule_AABB_loop_eq_all, List.all_eq_true]
  · rw [contains_Frustum_AABB, contains_Frustum_AABB_loop_eq_all, List.all_eq_true]

/-- C33: every overload of `contains` with a ray or a plane as the contained shape and a
bounded shape (or, for the plane, a ray) as the container returns false on every input. -/
theorem contains_unbounded_eq_false (bx : AABB Dim α) (s : Sphere Dim α) (c : Capsule Dim α)
    (f : Frustum Dim α) (l : LineSegment Dim α) (o : OBB Dim α) (t : Triangle Dim α)
    (v : Vec Dim α) (r : Ray Dim α) (bx3 : AABB 3 α) (s3 : Sphere 3 α) (c3 : Capsule 3 α)
    (f3 : Frustum 3 α) (l3 : LineSegment 3 α) (o3 : OBB 3 α) (r3 : Ray 3 α)
    (t3 : Triangle 3 α) (v3 : Vec 3 α) (pl : Plane 3 α) :
    (contains_AABB_Ray bx r = false ∧ contains_Sphere_Ray s r = false ∧
      contains_Capsule_Ray c r = false ∧ contains_Frustum_Ray f r = false ∧
      contains_LineSegment_Ray l r = false ∧ contains_OBB_Ray o r = false ∧
      contains_Triangle_Ray t r = false ∧ contains_Vec_Ray v r = false) ∧
    (contains_AABB_Plane bx3 pl = false ∧ contains_Sphere_Plane s3 pl = false ∧
      contains_Capsule_Plane c3 pl = false ∧ contains_Frustum_Plane f3 pl = false ∧
      contains_LineSegment_Plane l3 pl = false ∧ contains_OBB_Plane o3 pl = false ∧
      contains_Ray_Plane r3 pl = false ∧ contains_Triangle_Plane t3 pl = false ∧
      contains_Vec_Plane v3 pl = false) :=
  ⟨⟨rfl, rfl, rfl, rfl, rfl, rfl, rfl, rfl⟩, ⟨rfl, rfl, rfl, rfl, rfl, rfl, rfl, rfl, rfl⟩⟩

/-- C34: box containment is reflexive and transitive, and a point of a contained box is a
point of the containing box. -/
theorem contains_AABB_preorder (a b c : AABB Dim α) (p : Vec Dim α) :
    contains_AABB_AABB a a = true ∧
    (contains_AABB_AABB a b = true → contains_AABB_AABB b c = true →
      contains_AABB_AABB a c = true) ∧
    (contains_AABB_AABB a b = true → contains_AABB_Vec b p = true →
      contains_AABB_Vec a p = true) := by
  refine ⟨?_, ?_, ?_⟩
  · rw [contains_AABB_AABB_eq_true]
    exact ⟨fun i => le_refl _, fun i => le_refl _⟩
  · intro hab hbc
    rw [contains_AABB_AABB_eq_true] at hab hbc ⊢
    exact ⟨fun i => (hab.1 i).trans (hbc.1 i), fun i => (hbc.2 i).trans (hab.2 i)⟩
  · intro hab hbp
    rw [contains_AABB_AABB_eq_true] at hab
    rw [contains_AABB_Vec_eq_true] at hbp ⊢
    exact fun i => ⟨(hab.1 i).trans (hbp i).1, (hbp i).2.trans (hab.2 i)⟩

/-- C35: sphere containment is reflexive and transitive. -/
theorem contains_Sphere_Sphere_preorder (a b c : Sphere Dim ℝ) :
    contains_Sphere_Sphere Real.sqrt a a = true ∧
    (contains_Sphere_Sphere Real.sqrt a b = true → contains_Sphere_Sphere Real.sqrt b c = true →
      contains_Sphere_Sphere Real.sqrt a c = true) := by
  constructor
  · rw [contains_Sphere_Sphere_eq_true, (distance_Vec_Vec_eq_zero_iff _ _).2 rfl, zero_add]
  · intro hab hbc
    rw [contains_Sphere_Sphere_eq_true] at hab hbc ⊢
    have := distance_Vec_Vec_triangle a.center b.center c.center
    linarith

/-- C36: for a well-formed box `a` and a point `p`, the box-box formula against the degenerate
box `[p, p]` gives the value of the box-point formula. -/
theorem distanceSquared_AABB_degenerate_AABB_eq_Vec {n : Nat} (a : AABB (n + 1) α)
    (p : Vec (n + 1) α) (ha : a.WellFormed) :
    distanceSquared_AABB_AABB a ⟨p, p⟩ = distanceSquared_AABB_Vec a p := by
  rw [distanceSquared_AABB_AABB_eq_sum, distanceSquared_AABB_Vec, distanceSquared_Vec_Vec]
  exact Finset.sum_congr rfl fun i _ => gap_point_eq_clamp _ _ _ (ha i)

/-- C36 at the unit cube and the point `(2,0,0)`: both formulas give `1`. -/
theorem distanceSquared_AABB_degenerate_AABB_eq_Vec_witness :
    AABB.WellFormed (⟨![0, 0, 0], ![1, 1, 1]⟩ : AABB 3 ℚ) ∧
    distanceSquared_AABB_Vec (⟨![0, 0, 0], ![1, 1, 1]⟩ : AABB 3 ℚ) ![2, 0, 0] = 1 ∧
    distanceSquared_AABB_AABB (⟨![0, 0, 0], ![1, 1, 1]⟩ : AABB 3 ℚ)
      ⟨![2, 0, 0], ![2, 0, 0]⟩ = 1 := by
  have ha : AABB.WellFormed (⟨![0, 0, 0], ![1, 1, 1]⟩ : AABB 3 ℚ) := by
    intro i; fin_cases i <;> norm_num
  have hv : distanceSquared_AABB_Vec (⟨![0, 0, 0], ![1, 1, 1]⟩ : AABB 3 ℚ) ![2, 0, 0] = 1 := by
    simp [distanceSquared_AABB_Vec, distanceSquared_Vec_Vec, clamp, Fin.sum_univ_three]
    norm_num
  refine ⟨ha, hv, ?_⟩
  rw [distanceSquared_AABB_degenerate_AABB_eq_Vec _ _ ha, hv]

/-- C32: a point contains a sphere of non-negative radius, a line segment, a well-formed box or
a point exactly when that shape is the single point: for the sphere, every point within the
radius of the centre equals `a`, that is radius `0` and centre `a`; for the segment, both end
points are `a`; for the box, `min = max = a`, that is every point of the box equals `a`. -/
theorem contains_Vec_iff_single_point {n : Nat} (a p : Vec (n + 1) ℝ) (b : Sphere (n + 1) ℝ)
    (s : LineSegment (n + 1) ℝ) (bx : AABB (n + 1) ℝ) (hb : 0 ≤ b.radius)
    (hbx : bx.WellFormed) :
    ((contains_Vec_Sphere a b = true ↔ b.radius = 0 ∧ b.center = a) ∧
      (contains_Vec_Sphere a b = true ↔
        ∀ q : Vec (n + 1) ℝ, Real.sqrt (∑ i, (q i - b.center i) ^ 2) ≤ b.radius → q = a)) ∧
    (contains_Vec_LineSegment a s = true ↔ s.start = a ∧ s.end_ = a) ∧
    ((contains_Vec_AABB a bx = true ↔ bx.min = a ∧ bx.max = a) ∧
      (contains_Vec_AABB a bx = true ↔
        ∀ q : Vec (n + 1) ℝ, contains_AABB_Vec bx q = true → q = a)) ∧
    (contains_Vec_Vec a p = true ↔ a = p) := by
  have hsph : contains_Vec_Sphere a b = true ↔ b.radius = 0 ∧ b.center = a := by
    rw [contains_Vec_Sphere, Bool.and_eq_true, decide_eq_true_eq, veq_eq_true]
    exact ⟨fun h => ⟨h.1.symm, h.2.symm⟩, fun h => ⟨h.1.symm, h.2.symm⟩⟩
  refine ⟨⟨hsph, ?_⟩, ?_, ⟨contains_Vec_AABB_eq_true a bx, ?_⟩, contains_Vec_Vec_eq_true a p⟩
  · rw [hsph]
    constructor
    · rintro ⟨hr, hc⟩ q hq
      rw [hr, ← distanceSquared_Vec_Vec_eq_sum_sq] at hq
      have h0 : distance_Vec_Vec Real.sqrt q b.center = 0 :=
        le_antisymm hq (distance_Vec_Vec_nonneg _ _)
      rw [← hc]
      exact (distance_Vec_Vec_eq_zero_iff _ _).1 h0
    · intro h
      have hc : b.center = a := h b.center (by simpa using hb)
      obtain ⟨q, hq1, hq2⟩ := exists_far_point (EuclideanSpace.single 0 1) (by simp)
        ((WithLp.equiv 2 (Fin (n + 1) → ℝ)).symm b.center)
        ((WithLp.equiv 2 (Fin (n + 1) → ℝ)).symm b.center) b.radius hb
      have hq : (WithLp.equiv 2 (Fin (n + 1) → ℝ)) q = a := by
        apply h
        rw [sqrt_sum_sq_sub_eq_norm]
        simpa using hq1
      have hqc : q = (WithLp.equiv 2 (Fin (n + 1) → ℝ)).symm b.center := by
        rw [hc, ← hq]; simp
      rw [hqc, sub_self, norm_zero, zero_add] at hq2
      exact ⟨hq2.symm, hc⟩
  · rw [contains_Vec_LineSegment, Bool.and_eq_true, veq_eq_true, veq_eq_true]
    exact ⟨fun h => ⟨h.1.symm, h.2.symm⟩, fun h => ⟨h.1.symm, h.2.symm⟩⟩
  · rw [contains_Vec_AABB_eq_true]
    constructor
    · rintro ⟨h1, h2⟩ q hq
      rw [contains_AABB_Vec_eq_true] at hq
      funext i
      exact le_antisymm (by rw [← h2]; exact (hq i).2) (by rw [← h1]; exact (hq i).1)
    · intro h
      exact ⟨h bx.min ((contains_AABB_Vec_eq_true _ _).2 fun i => ⟨le_refl _, hbx i⟩),
        h bx.max ((contains_AABB_Vec_eq_true _ _).2 fun i => ⟨hbx i, le_refl _⟩)⟩

/-- C32 at the point `(1,2,3)` with the sphere of radius `0`, the segment and the box that
degenerate to it. -/
theorem contains_Vec_iff_single_point_witness :
    (0 : ℝ) ≤ (⟨![1, 2, 3], 0⟩ : Sphere 3 ℝ).radius ∧
    AABB.WellFormed (⟨![1, 2, 3], ![1, 2, 3]⟩ : AABB 3 ℝ) ∧
    contains_Vec_Sphere (![1, 2, 3] : Vec 3 ℝ) ⟨![1, 2, 3], 0⟩ = true ∧
    contains_Vec_LineSegment (![1, 2, 3] : Vec 3 ℝ) ⟨![1, 2, 3], ![1, 2, 3]⟩ = true ∧
    contains_Vec_AABB (![1, 2, 3] : Vec 3 ℝ) ⟨![1, 2, 3], ![1, 2, 3]⟩ = true := by
  have hwf : AABB.WellFormed (⟨![1, 2, 3], ![1, 2, 3]⟩ : AABB 3 ℝ) := fun i => le_refl _
  have h := contains_Vec_iff_single_point (![1, 2, 3] : Vec 3 ℝ) ![1, 2, 3] ⟨![1, 2, 3], 0⟩
    ⟨![1, 2, 3], ![1, 2, 3]⟩ ⟨![1, 2, 3], ![1, 2, 3]⟩ (le_refl _) hwf
  exact ⟨le_refl _, hwf, h.1.1.2 ⟨rfl, rfl⟩, h.2.1.2 ⟨rfl, rfl⟩, h.2.2.1.1.2 ⟨rfl, rfl⟩⟩

/-- C37: for a well-formed three-dimensional box and `t_near ≤ t_far`,
`detail::intersectsLine` returns a value, and returns true exactly when some `t` with
`t_near ≤ t ≤ t_far` puts `ray.origin + t * ray.direction` inside the box, bounds included. -/
theorem intersectsLine_iff (aabb : AABB 3 α) (ray : Ray 3 α) (t_near t_far : α)
    (hwf : aabb.WellFormed) (ht : t_near ≤ t_far) :
    (intersectsLine aabb ray t_near t_far = some true ∨
      intersectsLine aabb ray t_near t_far = some false) ∧
    (intersectsLine aabb ray t_near t_far = some true ↔
      ∃ t : α, t_near ≤ t ∧ t ≤ t_far ∧
        contains_AABB_Vec aabb (fun k => ray.origin k + t * ray.direction k) = true) := by
  have hl : ∀ i ∈ [0, 1, 2], i < 3 := by decide
  obtain ⟨h1, h2⟩ := intersectsLine_loop_spec aabb ray hwf [0, 1, 2] hl t_near t_far ht
  refine ⟨h1, ?_⟩
  rw [intersectsLine, h2]
  simp only [contains_AABB_Vec_eq_true]
  refine exists_congr fun t => and_congr_right fun _ => and_congr_right fun _ => ?_
  constructor
  · intro h k
    refine h k.val k.isLt ?_
    fin_cases k <;> simp
  · intro h i hi _
    exact h ⟨i, hi⟩

/-- C37 at the unit cube and the ray from `(-1, 1/2, 1/2)` along `(1,0,0)` with `t` in
`[0, 5]`: two direction components are zero, and `t = 1` reaches the box. -/
theorem intersectsLine_iff_witness :
    AABB.WellFormed (⟨![0, 0, 0], ![1, 1, 1]⟩ : AABB 3 ℚ) ∧ (0 : ℚ) ≤ 5 ∧
    intersectsLine (⟨![0, 0, 0], ![1, 1, 1]⟩ : AABB 3 ℚ)
      ⟨![-1, 1 / 2, 1 / 2], ![1, 0, 0]⟩ 0 5 = some true := by
  have hwf : AABB.WellFormed (⟨![0, 0, 0], ![1, 1, 1]⟩ : AABB 3 ℚ) := by
    intro i; fin_cases i <;> norm_num
  refine ⟨hwf, by norm_num, (intersectsLine_iff _ _ 0 5 hwf (by norm_num)).2.2
    ⟨1, by norm_num, by norm_num, ?_⟩⟩
  rw [contains_AABB_Vec_eq_true]
  intro i
  fin_cases i <;> norm_num

/-- C38 (defect): the loop of `detail::intersectsLine` visits the axes `0`, `1`, `2` whatever
`Dim` is.  In two dimensions it reads component `2`, which does not exist; in four dimensions
it never tests axis `3`: the ray from `(0,0,0,5)` along `(1,0,0,0)` is reported to hit the unit
box although none of its points is in the box. -/
theorem intersectsLine_not_dimension_generic :
    intersectsLine (⟨![0, 0], ![1, 1]⟩ : AABB 2 ℚ) ⟨![0, 0], ![1, 0]⟩ 0 1 = none ∧
    intersectsLine (⟨![0, 0, 0, 0], ![1, 1, 1, 1]⟩ : AABB 4 ℚ)
      ⟨![0, 0, 0, 5], ![1, 0, 0, 0]⟩ 0 1 = some true ∧
    ∀ t : ℚ, contains_AABB_Vec (⟨![0, 0, 0, 0], ![1, 1, 1, 1]⟩ : AABB 4 ℚ)
      (fun k => (![0, 0, 0, 5] : Vec 4 ℚ) k + t * (![1, 0, 0, 0] : Vec 4 ℚ) k) = false := by
  refine ⟨?_, ?_, ?_⟩
  · simp [intersectsLine, intersectsLine_loop]
    norm_num
  · simp [intersectsLine, intersectsLine_loop]
    norm_num
  · intro t
    rw [← Bool.not_eq_true, contains_AABB_Vec_eq_true]
    intro h
    have h3 := (h 3).2
    simp at h3

end ufo
